import Mathlib

set_option maxHeartbeats 1000000

/-!
# Verification of the Atrium caching and background-aggregation layer

Shallow embedding of the server-side caching code of the Atrium repository:
the session store, the S3 listing cache with targeted invalidation, and the
bucket-size aggregator with its distributed lock
(`src/server/session.ts`, `src/server/routes.ts`, `src/server/bucket-size.ts`).

JS strings and Redis keys/values are modeled as byte lists (UTF-8 code units).
JSON serialization is modeled as a tagged value (`StoredVal`): a stored value
either parses back to its payload or is corrupt; this mirrors
`JSON.stringify`/`JSON.parse` on the record types involved, which round-trip.
SHA-256 (`crypto.createHash("sha256")...digest("hex")`) is external crypto and
is modeled as a parameter producing hex digests (in particular its output
never contains the byte of a colon, which is what the key layout relies on).
Time is a natural number of milliseconds; `EX ttl` sets an absolute expiry of
`now + ttl * 1000`, and a key is live while `now < expiresAt`, matching Redis.
-/

namespace Atrium

/-- Byte strings: JS strings, Redis keys and Redis values are byte lists. -/
abbrev ByteStr := List Nat

/-- All elements are actual bytes (< 256), as produced by UTF-8 encoding. -/
def IsBytes (l : ByteStr) : Prop := ∀ b ∈ l, b < 256

/-- The base64url alphabet (RFC 4648 §5), as used by Node's
`Buffer.toString("base64url")`: sextet index 0–63 to ASCII code. -/
def b64Char (i : Nat) : Nat :=
  if i < 26 then 65 + i
  else if i < 52 then 97 + (i - 26)
  else if i < 62 then 48 + (i - 52)
  else if i = 62 then 45
  else 95

/-- Inverse of the base64url alphabet: ASCII code back to sextet index. -/
def b64CharInv (c : Nat) : Option Nat :=
  if 65 ≤ c ∧ c ≤ 90 then some (c - 65)
  else if 97 ≤ c ∧ c ≤ 122 then some (26 + (c - 97))
  else if 48 ≤ c ∧ c ≤ 57 then some (52 + (c - 48))
  else if c = 45 then some 62
  else if c = 95 then some 63
  else none

/-- `Buffer.from(value, "utf8").toString("base64url")`: unpadded base64url of a
byte sequence, three input bytes per four alphabet characters. -/
def base64urlEncode : ByteStr → ByteStr
  | [] => []
  | [a] => [b64Char (a / 4), b64Char (a % 4 * 16)]
  | [a, b] => [b64Char (a / 4), b64Char (a % 4 * 16 + b / 16), b64Char (b % 16 * 4)]
  | a :: b :: c :: rest =>
      b64Char (a / 4) :: b64Char (a % 4 * 16 + b / 16) ::
        b64Char (b % 16 * 4 + c / 64) :: b64Char (c % 64) :: base64urlEncode rest

/-- `Buffer.from(value, "base64url")` followed by `.toString("utf8")`:
decodes unpadded base64url, `none` on malformed input. -/
def base64urlDecode : ByteStr → Option ByteStr
  | [] => some []
  | [_] => none
  | [c1, c2] =>
      match b64CharInv c1, b64CharInv c2 with
      | some s1, some s2 => some [s1 * 4 + s2 / 16]
      | _, _ => none
  | [c1, c2, c3] =>
      match b64CharInv c1, b64CharInv c2, b64CharInv c3 with
      | some s1, some s2, some s3 => some [s1 * 4 + s2 / 16, s2 % 16 * 16 + s3 / 4]
      | _, _, _ => none
  | c1 :: c2 :: c3 :: c4 :: rest =>
      match b64CharInv c1, b64CharInv c2, b64CharInv c3, b64CharInv c4,
          base64urlDecode rest with
      | some s1, some s2, some s3, some s4, some ds =>
          some ((s1 * 4 + s2 / 16) :: (s2 % 16 * 16 + s3 / 4) :: (s3 % 4 * 64 + s4) :: ds)
      | _, _, _, _, _ => none

/-- JS `String.prototype.split` on a one-byte separator. -/
def splitOnByte (sep : Nat) : ByteStr → List ByteStr
  | [] => [[]]
  | b :: rest =>
      match splitOnByte sep rest with
      | [] => [[]]
      | seg :: segs => if b = sep then [] :: seg :: segs else (b :: seg) :: segs

/-- JS template interpolation of a non-negative integer: its decimal digit
bytes, most significant first (`Nat.digits` is little-endian). -/
def natToDecimal (n : Nat) : ByteStr :=
  if n = 0 then [48] else ((Nat.digits 10 n).map (fun d => 48 + d)).reverse

/-- A Redis value as written by `JSON.stringify`: either it parses back to the
payload it serialized, or it is corrupt and `JSON.parse` fails on it. -/
inductive StoredVal (α : Type) where
  | wellFormed (payload : α)
  | corrupt
deriving DecidableEq

/-- `JSON.parse` with a `try`/`catch`: `none` exactly when parsing throws. -/
def parseStored {α : Type} : StoredVal α → Option α
  | .wellFormed p => some p
  | .corrupt => none

/-- A stored key's value together with its absolute expiry time (ms). -/
structure Entry (α : Type) where
  value : StoredVal α
  expiresAt : Nat
deriving DecidableEq

/-- One Redis keyspace: an association list from key to entry. -/
abbrev Store (α : Type) := List (ByteStr × Entry α)

/-- First entry stored under a key, ignoring expiry. -/
def kvLookup {α : Type} : Store α → ByteStr → Option (Entry α)
  | [], _ => none
  | (k', e) :: rest, k => if k' = k then some e else kvLookup rest k

/-- `redis.get`: the stored value if the key is present and not yet expired. -/
def redisGet {α : Type} (st : Store α) (now : Nat) (k : ByteStr) : Option (StoredVal α) :=
  match kvLookup st k with
  | some e => if now < e.expiresAt then some e.value else none
  | none => none

/-- `redis.set(k, v, "EX", ttl)`: write `v` under `k` expiring `ttl` seconds
from now, replacing any previous entry for `k`. -/
def redisSetEx {α : Type} (st : Store α) (now : Nat) (k : ByteStr) (v : StoredVal α)
    (ttlSeconds : Nat) : Store α :=
  (k, ⟨v, now + ttlSeconds * 1000⟩) :: st.filter (fun p => decide (p.1 ≠ k))

/-- `redis.expire(k, ttl)`: reset the TTL of `k` to `ttl` seconds from now. -/
def redisExpire {α : Type} : Store α → Nat → ByteStr → Nat → Store α
  | [], _, _, _ => []
  | (k', e) :: rest, now, k, ttlSeconds =>
      if k' = k then (k', ⟨e.value, now + ttlSeconds * 1000⟩) :: redisExpire rest now k ttlSeconds
      else (k', e) :: redisExpire rest now k ttlSeconds

/-- `redis.del(k)` on a single key. -/
def redisDel {α : Type} (st : Store α) (k : ByteStr) : Store α :=
  st.filter (fun p => decide (p.1 ≠ k))

/-- `redis.unlink(...keys)` over a gathered key list. -/
def redisDelMany {α : Type} (st : Store α) (keys : List ByteStr) : Store α :=
  st.filter (fun p => decide (p.1 ∉ keys))

/-- `scanKeys(pattern)` for the patterns this code builds: every pattern is a
literal key fragment followed by `*`, and the literal fragment contains no
glob metacharacter, so a key matches exactly when it starts with the fragment. -/
def scanKeysPrefix {α : Type} (st : Store α) (pat : ByteStr) : List ByteStr :=
  (st.filter (fun p => pat.isPrefixOf p.1)).map Prod.fst

/-- `SessionCredentials` from `src/server/types.ts`. -/
structure SessionCredentials where
  accessKeyId : ByteStr
  secretAccessKey : ByteStr
deriving DecidableEq

/-- `FolderEntry` from `src/server/types.ts`. -/
structure FolderEntry where
  key : ByteStr
  name : ByteStr
deriving DecidableEq

/-- `FileEntry` from `src/server/types.ts`. -/
structure FileEntry where
  key : ByteStr
  name : ByteStr
  size : Nat
  lastModified : Option ByteStr
  contentType : Option ByteStr
deriving DecidableEq

/-- `ListObjectsResponse` from `src/server/types.ts`; the source field
`prefix` is called `pfx` here because `prefix` is reserved in Lean. -/
structure ListObjectsResponse where
  bucket : ByteStr
  pfx : ByteStr
  continuationToken : Option ByteStr
  nextContinuationToken : Option ByteStr
  isTruncated : Bool
  folders : List FolderEntry
  files : List FileEntry
deriving DecidableEq

/-- `S3_LIST_CACHE_INVALIDATION_MODE`: `z.enum(["targeted", "bucket"])`. -/
inductive InvalidationMode where
  | targeted
  | bucket
deriving DecidableEq

/-- The configuration fields of `src/server/config.ts` that this layer reads. -/
structure AtriumConfig where
  S3_LIST_CACHE_ENABLED : Bool
  S3_LIST_CACHE_TTL_SECONDS : Nat
  S3_LIST_CACHE_INVALIDATION_MODE : InvalidationMode
  S3_LIST_CACHE_INCLUDE_HEADERS : Bool
  SESSION_TTL_SECONDS : Nat
  BUCKET_SIZE_MAX_DURATION_MS : Nat

/-- Bytes of the literal `"atrium:session:"` produced by `sessionKey`. -/
def sessionKeyPrefixBytes : ByteStr :=
  [97, 116, 114, 105, 117, 109, 58, 115, 101, 115, 115, 105, 111, 110, 58]

/-- `sessionKey(token)` = `` `atrium:session:${token}` ``. -/
def sessionKey (token : ByteStr) : ByteStr := sessionKeyPrefixBytes ++ token

/-- Bytes of the literal `"atrium:cache_s3_list"` (`listCacheKeyPrefix`). -/
def listCacheKeyPrefixBytes : ByteStr :=
  [97, 116, 114, 105, 117, 109, 58,
   99, 97, 99, 104, 101, 95, 115, 51, 95, 108, 105, 115, 116]

/-- `encodeSegment`: base64url of the UTF-8 bytes of the segment. -/
def encodeSegment (value : ByteStr) : ByteStr := base64urlEncode value

/-- `decodeSegment`: base64url decoding, `none` when it fails. -/
def decodeSegment (value : ByteStr) : Option ByteStr := base64urlDecode value

/-- `listCacheBucketNamespace(sessionToken, bucket)`; `hash` models
`hashSessionToken` (SHA-256 hex digest, external crypto). The byte 58 is `:`. -/
def listCacheBucketNamespace (hash : ByteStr → ByteStr)
    (sessionToken bucket : ByteStr) : ByteStr :=
  listCacheKeyPrefixBytes ++ 58 :: (hash sessionToken ++ 58 :: encodeSegment bucket)

/-- `listCacheKey(sessionToken, bucket, prefix, continuationToken, maxKeys)`;
`continuationToken || ""` maps an absent cursor to the empty string. -/
def listCacheKey (hash : ByteStr → ByteStr) (sessionToken bucket pfx : ByteStr)
    (continuationToken : Option ByteStr) (maxKeys : Nat) : ByteStr :=
  listCacheBucketNamespace hash sessionToken bucket ++
    58 :: (encodeSegment pfx ++
      58 :: (encodeSegment (continuationToken.getD []) ++ 58 :: natToDecimal maxKeys))

/-- `readPrefixFromListCacheKey`: strip `"atrium:cache_s3_list:"`, split the
rest on `:`, require exactly five segments, decode the third. -/
def readPrefixFromListCacheKey (cacheKey : ByteStr) : Option ByteStr :=
  let pws := listCacheKeyPrefixBytes ++ [58]
  if pws.isPrefixOf cacheKey then
    match splitOnByte 58 (cacheKey.drop pws.length) with
    | [_, _, s2, _, _] => decodeSegment s2
    | _ => none
  else none

/-- Result of `getSessionCredentials`: `absent` for a missing/expired key,
`found` on success, `parseError` when `JSON.parse(data)` throws. -/
inductive LookupOutcome (α : Type) where
  | absent
  | found (a : α)
  | parseError
deriving DecidableEq

/-- `createSession` with the freshly generated random token as a parameter. -/
def createSession (cfg : AtriumConfig) (st : Store SessionCredentials) (now : Nat)
    (token : ByteStr) (credentials : SessionCredentials) : Store SessionCredentials :=
  redisSetEx st now (sessionKey token) (.wellFormed credentials) cfg.SESSION_TTL_SECONDS

/-- `getSessionCredentials`: read; on a miss return `null`; otherwise refresh
the TTL (sliding expiration) and then `JSON.parse` the stored payload, which
throws out of the function if the payload is corrupt. -/
def getSessionCredentials (cfg : AtriumConfig) (st : Store SessionCredentials)
    (now : Nat) (token : ByteStr) :
    Store SessionCredentials × LookupOutcome SessionCredentials :=
  match redisGet st now (sessionKey token) with
  | none => (st, .absent)
  | some data =>
      let st' := redisExpire st now (sessionKey token) cfg.SESSION_TTL_SECONDS
      match parseStored data with
      | some credentials => (st', .found credentials)
      | none => (st', .parseError)

/-- `deleteSession`. -/
def deleteSession (st : Store SessionCredentials) (token : ByteStr) :
    Store SessionCredentials :=
  redisDel st (sessionKey token)

/-- `getCachedListObjectsResponse`: `null` when the cache is disabled or the
key is absent/expired; a corrupt value is eagerly deleted and treated as a
miss. Returns the possibly updated store alongside the result. -/
def getCachedListObjectsResponse (cfg : AtriumConfig) (hash : ByteStr → ByteStr)
    (st : Store ListObjectsResponse) (now : Nat) (sessionToken bucket pfx : ByteStr)
    (continuationToken : Option ByteStr) (maxKeys : Nat) :
    Store ListObjectsResponse × Option ListObjectsResponse :=
  if cfg.S3_LIST_CACHE_ENABLED = false then (st, none)
  else
    let key := listCacheKey hash sessionToken bucket pfx continuationToken maxKeys
    match redisGet st now key with
    | none => (st, none)
    | some value =>
        match parseStored value with
        | some r => (st, some r)
        | none => (redisDel st key, none)

/-- `setCachedListObjectsResponse`: write-through with the fixed cache TTL. -/
def setCachedListObjectsResponse (cfg : AtriumConfig) (hash : ByteStr → ByteStr)
    (st : Store ListObjectsResponse) (now : Nat) (sessionToken bucket pfx : ByteStr)
    (continuationToken : Option ByteStr) (maxKeys : Nat)
    (response : ListObjectsResponse) : Store ListObjectsResponse :=
  if cfg.S3_LIST_CACHE_ENABLED = false then st
  else
    redisSetEx st now (listCacheKey hash sessionToken bucket pfx continuationToken maxKeys)
      (.wellFormed response) cfg.S3_LIST_CACHE_TTL_SECONDS

/-- `invalidateCachedListObjectsForBucket`: delete every key in the
session+bucket namespace. -/
def invalidateCachedListObjectsForBucket (cfg : AtriumConfig) (hash : ByteStr → ByteStr)
    (st : Store ListObjectsResponse) (sessionToken bucket : ByteStr) :
    Store ListObjectsResponse × Nat :=
  if cfg.S3_LIST_CACHE_ENABLED = false then (st, 0)
  else
    let keys := scanKeysPrefix st (listCacheBucketNamespace hash sessionToken bucket ++ [58])
    (redisDelMany st keys, keys.length)

/-- The exact arm of `invalidateCachedListObjectsByPrefix`: for each exact
prefix, scan only that prefix segment of the namespace. -/
def exactScanKeys (hash : ByteStr → ByteStr) (st : Store ListObjectsResponse)
    (sessionToken bucket : ByteStr) (exactPfxs : List ByteStr) : List ByteStr :=
  (exactPfxs.map (fun p => scanKeysPrefix st
    (listCacheBucketNamespace hash sessionToken bucket ++
      58 :: (encodeSegment p ++ [58])))).flatten

/-- The children arm of `invalidateCachedListObjectsByPrefix`: when any
prefixes-with-children are requested, scan the whole namespace and keep the
keys whose decoded prefix starts with one of them. -/
def childScanKeys (hash : ByteStr → ByteStr) (st : Store ListObjectsResponse)
    (sessionToken bucket : ByteStr) (childPfxs : List ByteStr) : List ByteStr :=
  if childPfxs.isEmpty then []
  else
    (scanKeysPrefix st (listCacheBucketNamespace hash sessionToken bucket ++ [58])).filter
      (fun cacheKey =>
        match readPrefixFromListCacheKey cacheKey with
        | none => false
        | some cachedPfx => childPfxs.any (fun p => p.isPrefixOf cachedPfx))

/-- `invalidateCachedListObjectsByPrefix`: gather the exact-prefix scans and
the prefixes-with-children scan, de-duplicate, and delete. The source
parameters `exactPrefixes` / `prefixesWithChildren` are `exactPfxs` /
`childPfxs` here. -/
def invalidateCachedListObjectsByPrefix (cfg : AtriumConfig) (hash : ByteStr → ByteStr)
    (st : Store ListObjectsResponse) (sessionToken bucket : ByteStr)
    (exactPfxs : List ByteStr) (childPfxs : List ByteStr) :
    Store ListObjectsResponse × Nat :=
  if cfg.S3_LIST_CACHE_ENABLED = false then (st, 0)
  else
    let keysToDelete := (exactScanKeys hash st sessionToken bucket exactPfxs ++
      childScanKeys hash st sessionToken bucket childPfxs).dedup
    (redisDelMany st keysToDelete, keysToDelete.length)

/-- A listing-cache key tuple: the components from which `listCacheKey`
derives a store key (the source field `prefix` is `pfx`). -/
structure CacheTuple where
  token : ByteStr
  bucket : ByteStr
  pfx : ByteStr
  cursor : Option ByteStr
  maxKeys : Nat

/-- The store key of a cache tuple. -/
def tupleKey (hash : ByteStr → ByteStr) (e : CacheTuple) : ByteStr :=
  listCacheKey hash e.token e.bucket e.pfx e.cursor e.maxKeys

/-- All components of a cache tuple are byte strings. -/
def WellFormedTuple (e : CacheTuple) : Prop :=
  IsBytes e.bucket ∧ IsBytes e.pfx ∧ IsBytes (e.cursor.getD [])

/-- `normalizePrefix` from `src/server/routes.ts`: empty stays empty,
otherwise append a trailing `/` (byte 47) if not already present. -/
def normalizePrefix (p : ByteStr) : ByteStr :=
  if p = [] then []
  else if p.getLast? = some 47 then p else p ++ [47]

/-- `getParentPrefixFromObjectKey`: everything up to and including the last
`/` of the key, or the empty string if the key has no `/`. -/
def getParentPrefixFromObjectKey : ByteStr → ByteStr
  | [] => []
  | b :: rest =>
      if 47 ∈ rest then b :: getParentPrefixFromObjectKey rest
      else if b = 47 then [47] else []

/-- The loop body of `getAncestorPrefixes`: extend the running directory
prefix by one level and record it. -/
def ancestorStep (acc : List ByteStr × ByteStr) (part : ByteStr) :
    List ByteStr × ByteStr :=
  (acc.1 ++ [acc.2 ++ part ++ [47]], acc.2 ++ part ++ [47])

/-- `getAncestorPrefixes`: the root prefix plus each directory level of the
normalized prefix, e.g. `a/b/` ↦ `["", "a/", "a/b/"]`. -/
def getAncestorPrefixes (p : ByteStr) : List ByteStr :=
  if normalizePrefix p = [] then [[]]
  else
    (((splitOnByte 47 (normalizePrefix p)).filter (fun s => !s.isEmpty)).foldl
      ancestorStep ([[]], [])).1

/-- The `options` argument of `invalidateListCacheForMutation`: an uploaded or
deleted object key, or a recursively deleted prefix. -/
inductive MutationTarget where
  | object (key : ByteStr)
  | pfxDelete (p : ByteStr)

/-- `invalidateListCacheForMutation` from `src/server/routes.ts`: no-op when
the cache is disabled or there is no session token; in `bucket` mode clear the
whole session+bucket namespace; in `targeted` mode invalidate the ancestor
chain of the mutated object's parent (plus, for a prefix delete, every cached
prefix starting with the normalized prefix). -/
def invalidateListCacheForMutation (cfg : AtriumConfig) (hash : ByteStr → ByteStr)
    (st : Store ListObjectsResponse) (sessionToken : Option ByteStr) (bucket : ByteStr)
    (target : MutationTarget) : Store ListObjectsResponse :=
  match sessionToken with
  | none => st
  | some tok =>
      if cfg.S3_LIST_CACHE_ENABLED = false then st
      else
        match cfg.S3_LIST_CACHE_INVALIDATION_MODE with
        | .bucket => (invalidateCachedListObjectsForBucket cfg hash st tok bucket).1
        | .targeted =>
            match target with
            | .object key =>
                (invalidateCachedListObjectsByPrefix cfg hash st tok bucket
                  (getAncestorPrefixes (getParentPrefixFromObjectKey key)) []).1
            | .pfxDelete p =>
                (invalidateCachedListObjectsByPrefix cfg hash st tok bucket
                  (getAncestorPrefixes (normalizePrefix p))
                  (if normalizePrefix p = [] then [] else [normalizePrefix p])).1

/-- The value passed to `setListCacheHeader` for a listing response. -/
inductive CacheSignal where
  | HIT
  | MISS
  | BYPASS
deriving DecidableEq

/-- Observable outcome of the `GET /api/s3/objects` handler: the returned
page, the cache-status signal, whether a cache write was attempted, and the
listing-cache store after the request. -/
structure ListRequestResult where
  response : ListObjectsResponse
  signal : CacheSignal
  storeAttempted : Bool
  finalStore : Store ListObjectsResponse
deriving DecidableEq

/-- The cached path of `GET /api/s3/objects` (`src/server/routes.ts`), after
query validation: bypass when the cache is disabled or unauthenticated; else
try the cache read — if the read itself throws (`cacheReadFails`), signal
BYPASS, serve the upstream collaborator's page and skip the cache write; on a
hit serve it; on a miss serve upstream and write it through. -/
def handleListObjects (cfg : AtriumConfig) (hash : ByteStr → ByteStr)
    (st : Store ListObjectsResponse) (now : Nat) (sessionToken : Option ByteStr)
    (bucket pfx : ByteStr) (continuationToken : Option ByteStr) (maxKeys : Nat)
    (cacheReadFails : Bool) (upstream : ListObjectsResponse) : ListRequestResult :=
  match sessionToken with
  | none => ⟨upstream, .BYPASS, false, st⟩
  | some tok =>
      if cfg.S3_LIST_CACHE_ENABLED = false then ⟨upstream, .BYPASS, false, st⟩
      else if cacheReadFails then ⟨upstream, .BYPASS, false, st⟩
      else
        match getCachedListObjectsResponse cfg hash st now tok bucket pfx
            continuationToken maxKeys with
        | (st', some cached) => ⟨cached, .HIT, false, st'⟩
        | (st', none) =>
            ⟨upstream, .MISS, true,
              setCachedListObjectsResponse cfg hash st' now tok bucket pfx
                continuationToken maxKeys upstream⟩

/-- `BucketSizeResult` from `src/server/bucket-size.ts`. Sizes, counts and
timestamps are naturals; `error` and `sizeFormatted` are JS strings. -/
structure BucketSizeResult where
  bucket : ByteStr
  totalSize : Nat
  objectCount : Nat
  isApproximate : Bool
  isInaccessible : Bool
  error : Option String
  calculatedAt : Nat
  durationMs : Nat
  sizeFormatted : String
deriving DecidableEq

/-- `getBucketSizeCacheTtlSeconds`: adaptive cache TTL by object count. -/
def getBucketSizeCacheTtlSeconds (objectCount : Nat) : Nat :=
  if objectCount < 10000 then 3600
  else if objectCount < 100000 then 86400
  else 86400 * 7

/-- `isBucketSizeResultFresh`: age in hours (exact rational division, as the
JS float computation is exact on these ranges) against a tiered threshold. -/
def isBucketSizeResultFresh (result : BucketSizeResult) (now : Nat) : Bool :=
  let ageHours : ℚ := ((now : ℚ) - (result.calculatedAt : ℚ)) / (1000 * 60 * 60)
  if result.objectCount < 10000 then decide (ageHours < 1)
  else if result.objectCount < 100000 then decide (ageHours < 24)
  else decide (ageHours < 168)

/-- Outcome of the upstream `calculateBucketSize` aggregation for one run:
either a computed result, or a thrown error which `isPermissionDeniedError`
classifies, with the derived message for other errors
(`error instanceof Error ? error.message : "Unknown error"`). -/
inductive UpstreamOutcome where
  | ok (result : BucketSizeResult)
  | errPermissionDenied
  | errOther (msg : String)

/-- The shared-store cell for one (bucket, credential-scope) pair: its cached
`BucketSizeResult` entry and its computation-lock entry (worker id, expiry). -/
structure BSPairState where
  result : Option (Entry BucketSizeResult)
  lock : Option (ByteStr × Nat)
deriving DecidableEq

/-- `getCachedBucketSize` (plus `parseBucketSizeResult`) on a pair state. -/
def getCachedBucketSize (st : BSPairState) (now : Nat) : Option BucketSizeResult :=
  match st.result with
  | some e => if now < e.expiresAt then parseStored e.value else none
  | none => none

/-- `storeBucketSizeResult`: write the result with its adaptive TTL. -/
def storeBucketSizeResult (st : BSPairState) (now : Nat) (result : BucketSizeResult) :
    BSPairState :=
  let e : Entry BucketSizeResult :=
    ⟨.wellFormed result, now + getBucketSizeCacheTtlSeconds result.objectCount * 1000⟩
  { st with result := some e }

/-- `BucketSizeCalculationStatus`. -/
inductive CalcStatus where
  | calculated
  | alreadyLocked
  | alreadyFresh
deriving DecidableEq

/-- The lock TTL: `max(ceil(BUCKET_SIZE_MAX_DURATION_MS / 1000) + 60, 300)`. -/
def lockTtlSeconds (cfg : AtriumConfig) : Nat :=
  max ((cfg.BUCKET_SIZE_MAX_DURATION_MS + 999) / 1000 + 60) 300

/-- `calculateBucketSizeWithLock` as a single sequential run (no interleaving;
the interleaved semantics is `LockMachine` below): skip if a fresh result is
cached and `force` is not set; acquire the lock with `SET NX EX`; run the
aggregation (its outcome is the `outcome` parameter); on success store the
result; on a permission-denied error store an `isInaccessible` record; on any
other error store an `isApproximate` record with the message; in all three
cases return `calculated`; finally release the lock only if the stored worker
id still equals this worker's id. -/
def calculateBucketSizeWithLock (cfg : AtriumConfig) (st : BSPairState) (now : Nat)
    (bucketName : ByteStr) (workerId : ByteStr) (force : Bool)
    (outcome : UpstreamOutcome) : BSPairState × CalcStatus :=
  let freshHit : Bool :=
    match getCachedBucketSize st now with
    | some existing => isBucketSizeResultFresh existing now
    | none => false
  if !force && freshHit then (st, .alreadyFresh)
  else
    let lockLive := match st.lock with
      | some (_, exp) => decide (now < exp)
      | none => false
    if lockLive then (st, .alreadyLocked)
    else
      let locked : BSPairState :=
        { st with lock := some (workerId, now + lockTtlSeconds cfg * 1000) }
      let afterStore : BSPairState :=
        match outcome with
        | .ok result => storeBucketSizeResult locked now result
        | .errPermissionDenied =>
            storeBucketSizeResult locked now
              ⟨bucketName, 0, 0, false, true, some "Access denied", now, 0, "0 Bytes"⟩
        | .errOther msg =>
            storeBucketSizeResult locked now
              ⟨bucketName, 0, 0, true, false, some msg, now, 0, "0 Bytes"⟩
      let lockOwner : Option ByteStr :=
        match afterStore.lock with
        | some (w, exp) => if now < exp then some w else none
        | none => none
      let released : BSPairState :=
        if lockOwner = some workerId then { afterStore with lock := none } else afterStore
      (released, .calculated)

/-- One `computeWithLock` invocation recorded by the background cycle. -/
structure CycleCall where
  bucket : ByteStr
  credentials : SessionCredentials
  force : Bool
deriving DecidableEq

/-- `parseSessionCredentials`: `null` for a missing value, a JSON parse
failure, or a payload without both string credential fields (the latter two
are both `corrupt` in the serialization model). -/
def parseSessionCredentials : Option (StoredVal SessionCredentials) →
    Option SessionCredentials
  | some v => parseStored v
  | none => none

/-- The inner loop body of `runBackgroundBucketSizeCycle`: run
`calculateBucketSizeWithLock` (without `force`) for one tracked bucket,
update that pair's store cell, and record the invocation. -/
def cycleBucketStep (cfg : AtriumConfig)
    (outcomes : SessionCredentials → ByteStr → UpstreamOutcome)
    (now : Nat) (workerId : ByteStr) (credentials : SessionCredentials)
    (acc : (SessionCredentials → ByteStr → BSPairState) × List CycleCall)
    (bucket : ByteStr) :
    (SessionCredentials → ByteStr → BSPairState) × List CycleCall :=
  let r := calculateBucketSizeWithLock cfg (acc.1 credentials bucket) now
    bucket workerId false (outcomes credentials bucket)
  (fun c b => if c = credentials ∧ b = bucket then r.1 else acc.1 c b,
   acc.2 ++ [CycleCall.mk bucket credentials false])

/-- The outer loop body of `runBackgroundBucketSizeCycle`: extract the token
from a scanned session key, skip empty tokens and unparseable credentials,
and walk the session's tracked buckets. -/
def cycleSessionStep (cfg : AtriumConfig)
    (sessionVal : ByteStr → Option (StoredVal SessionCredentials))
    (trackedBuckets : ByteStr → List ByteStr)
    (outcomes : SessionCredentials → ByteStr → UpstreamOutcome)
    (now : Nat) (workerId : ByteStr)
    (acc : (SessionCredentials → ByteStr → BSPairState) × List CycleCall)
    (key : ByteStr) :
    (SessionCredentials → ByteStr → BSPairState) × List CycleCall :=
  if key.drop sessionKeyPrefixBytes.length = [] then acc
  else
    match parseSessionCredentials (sessionVal (key.drop sessionKeyPrefixBytes.length)) with
    | none => acc
    | some credentials =>
        (trackedBuckets (key.drop sessionKeyPrefixBytes.length)).foldl
          (cycleBucketStep cfg outcomes now workerId credentials) acc

/-- `runBackgroundBucketSizeCycle`: when the feature flag is on, walk every
scanned session key, extract the token, skip empty tokens and unparseable
credentials, and invoke `computeWithLock` (never with `force`) for every
tracked bucket of the session. Collaborator reads, the per-pair store cells
and each pair's aggregation outcome (which may be an error) are parameters;
the value is the final per-pair store together with the ordered list of
`computeWithLock` invocations the cycle makes. -/
def runBackgroundBucketSizeCycle (cfg : AtriumConfig) (enabled : Bool)
    (sessionScanKeys : List ByteStr)
    (sessionVal : ByteStr → Option (StoredVal SessionCredentials))
    (trackedBuckets : ByteStr → List ByteStr)
    (bs : SessionCredentials → ByteStr → BSPairState)
    (outcomes : SessionCredentials → ByteStr → UpstreamOutcome)
    (now : Nat) (workerId : ByteStr) :
    (SessionCredentials → ByteStr → BSPairState) × List CycleCall :=
  if enabled = false then (bs, [])
  else sessionScanKeys.foldl (cycleSessionStep cfg sessionVal trackedBuckets outcomes
    now workerId) (bs, [])

/-- The per-session contribution to the cycle's call trace (specification
value for `runBackgroundBucketSizeCycle`'s trace). -/
def sessionCalls (sessionVal : ByteStr → Option (StoredVal SessionCredentials))
    (trackedBuckets : ByteStr → List ByteStr) (key : ByteStr) : List CycleCall :=
  if key.drop sessionKeyPrefixBytes.length = [] then []
  else
    match parseSessionCredentials (sessionVal (key.drop sessionKeyPrefixBytes.length)) with
    | none => []
    | some credentials =>
        (trackedBuckets (key.drop sessionKeyPrefixBytes.length)).map
          (fun bucket => CycleCall.mk bucket credentials false)

namespace LockMachine

/-- Per-run status, mirroring `BucketSizeCalculationStatus`. -/
inductive Status where
  | calculated
  | alreadyLocked
  | alreadyFresh
deriving DecidableEq

/-- Control point of one `calculateBucketSizeWithLock` run, between its atomic
shared-store operations: the freshness pre-check read, the `SET NX` acquire,
the computation plus result write, the lock-owner read of the `finally` block,
and the conditional delete. -/
inductive Phase where
  | checkFresh
  | acquire
  | runStore
  | readOwner
  | finishDel (observed : Option ByteStr)
  | done (s : Status)
deriving DecidableEq

/-- One worker executing `calculateBucketSizeWithLock` (without `force`):
its unique worker id, its control point, and whether it has run the
computation. -/
structure Proc where
  wid : ByteStr
  phase : Phase
  computed : Bool
deriving DecidableEq

/-- The shared store cell for the contended (bucket, credential-scope) pair:
the lock's current holder and whether a (fresh) result has been stored.
Lock TTL expiry does not occur within the modeled window (the TTL is at
least 300 s by construction). -/
structure Shared where
  lock : Option ByteStr
  stored : Bool
deriving DecidableEq

/-- One atomic step of a worker, following the source order of
`calculateBucketSizeWithLock`. A finished worker does not move. -/
def stepProc (sh : Shared) (p : Proc) : Shared × Proc :=
  match p.phase with
  | .checkFresh =>
      if sh.stored then (sh, { p with phase := .done .alreadyFresh })
      else (sh, { p with phase := .acquire })
  | .acquire =>
      match sh.lock with
      | some _ => (sh, { p with phase := .done .alreadyLocked })
      | none => ({ sh with lock := some p.wid }, { p with phase := .runStore })
  | .runStore =>
      ({ sh with stored := true }, { p with phase := .readOwner, computed := true })
  | .readOwner => (sh, { p with phase := .finishDel sh.lock })
  | .finishDel observed =>
      if observed = some p.wid then
        ({ sh with lock := none }, { p with phase := .done .calculated })
      else (sh, { p with phase := .done .calculated })
  | .done _ => (sh, p)

/-- Two workers contending for the same pair plus the shared cell. -/
structure Sys where
  sh : Shared
  a : Proc
  b : Proc
deriving DecidableEq

/-- Scheduler step: `true` steps worker `a`, `false` steps worker `b`. -/
def stepSys (c : Sys) (choice : Bool) : Sys :=
  if choice then
    let (sh', a') := stepProc c.sh c.a
    { c with sh := sh', a := a' }
  else
    let (sh', b') := stepProc c.sh c.b
    { c with sh := sh', b := b' }

/-- Run an arbitrary interleaving. -/
def runSys (c : Sys) (sched : List Bool) : Sys := sched.foldl stepSys c

/-- The initial system: lock free, no fresh result cached, both workers about
to run their freshness pre-check. -/
def initSys (widA widB : ByteStr) : Sys :=
  ⟨⟨none, false⟩, ⟨widA, .checkFresh, false⟩, ⟨widB, .checkFresh, false⟩⟩

/-- A worker currently holds the lock: it is past a successful acquire and has
not yet executed its conditional delete. -/
def isHolding (p : Proc) : Bool :=
  match p.phase with
  | .runStore => true
  | .readOwner => true
  | .finishDel _ => true
  | _ => false

/-- A worker has executed its acquire attempt (successfully or not). -/
def isPastAcquire (p : Proc) : Bool :=
  match p.phase with
  | .runStore => true
  | .readOwner => true
  | .finishDel _ => true
  | .done .alreadyLocked => true
  | .done .calculated => true
  | _ => false

/-- A worker has completed a run in which it held and then released the lock. -/
def isDelDone (p : Proc) : Bool := p.phase = .done .calculated

/-- Exchange the two workers (for symmetry arguments). -/
def swap (c : Sys) : Sys := ⟨c.sh, c.b, c.a⟩

/-- The inductive invariant of the two-worker lock protocol: worker ids are
constant and distinct per worker; a worker that has not attempted the acquire
has not computed; `already-locked`/`already-fresh` outcomes never computed;
a holder's id is the stored lock value; the lock, when set, is held by the
worker whose id it stores; the owner read in the `finally` block is always
the reader's own id; and a worker denied the lock was denied by a worker that
still holds it or has since released it after computing. -/
structure Inv (widA widB : ByteStr) (c : Sys) : Prop where
  widA_eq : c.a.wid = widA
  widB_eq : c.b.wid = widB
  preA : c.a.phase = .checkFresh ∨ c.a.phase = .acquire → c.a.computed = false
  preB : c.b.phase = .checkFresh ∨ c.b.phase = .acquire → c.b.computed = false
  lockedA : c.a.phase = .done .alreadyLocked → c.a.computed = false
  lockedB : c.b.phase = .done .alreadyLocked → c.b.computed = false
  freshA : c.a.phase = .done .alreadyFresh → c.a.computed = false
  freshB : c.b.phase = .done .alreadyFresh → c.b.computed = false
  holdA : isHolding c.a = true → c.sh.lock = some widA
  holdB : isHolding c.b = true → c.sh.lock = some widB
  lock_inv : ∀ w, c.sh.lock = some w →
    (w = widA ∧ isHolding c.a = true) ∨ (w = widB ∧ isHolding c.b = true)
  obsA : ∀ o, c.a.phase = .finishDel o → o = some widA
  obsB : ∀ o, c.b.phase = .finishDel o → o = some widB
  blockedA : c.a.phase = .done .alreadyLocked →
    isHolding c.b = true ∨ c.b.phase = .done .calculated
  blockedB : c.b.phase = .done .alreadyLocked →
    isHolding c.a = true ∨ c.a.phase = .done .calculated

end LockMachine

/-! ## Properties of the encoding helpers -/

/-- The base64url alphabet inverts on sextet indices. -/
theorem b64CharInv_b64Char (i : Nat) (h : i < 64) : b64CharInv (b64Char i) = some i := by
  unfold b64Char b64CharInv
  split_ifs <;> simp_all <;> omega

/-- No base64url alphabet character is the colon byte. -/
theorem b64Char_ne_colon (i : Nat) : b64Char i ≠ 58 := by
  unfold b64Char
  split_ifs <;> omega

/-- Symmetric form of `b64Char_ne_colon` for `simp`. -/
theorem colon_ne_b64Char (i : Nat) : (58 : Nat) ≠ b64Char i :=
  fun h => b64Char_ne_colon i h.symm

/-- Unpadded base64url decoding inverts encoding on byte sequences. -/
theorem base64urlDecode_encode :
    ∀ l : ByteStr, IsBytes l → base64urlDecode (base64urlEncode l) = some l
  | [] => fun _ => rfl
  | [a] => fun h => by
      have ha : a < 256 := h a (by simp)
      simp only [base64urlEncode, base64urlDecode]
      rw [b64CharInv_b64Char _ (by omega), b64CharInv_b64Char _ (by omega)]
      simp only [Option.some.injEq, List.cons.injEq, and_true]
      omega
  | [a, b] => fun h => by
      have ha : a < 256 := h a (by simp)
      have hb : b < 256 := h b (by simp)
      simp only [base64urlEncode, base64urlDecode]
      rw [b64CharInv_b64Char _ (by omega), b64CharInv_b64Char _ (by omega),
        b64CharInv_b64Char _ (by omega)]
      simp only [Option.some.injEq, List.cons.injEq, and_true]
      omega
  | a :: b :: c :: rest => fun h => by
      have ha : a < 256 := h a (by simp)
      have hb : b < 256 := h b (by simp)
      have hc : c < 256 := h c (by simp)
      have ih := base64urlDecode_encode rest (fun x hx => h x (by simp [hx]))
      simp only [base64urlEncode, base64urlDecode]
      rw [b64CharInv_b64Char _ (by omega), b64CharInv_b64Char _ (by omega),
        b64CharInv_b64Char _ (by omega), b64CharInv_b64Char _ (by omega), ih]
      simp only [Option.some.injEq, List.cons.injEq, and_true]
      omega

/-- Base64url encoding never emits a colon byte. -/
theorem colon_not_mem_base64urlEncode : ∀ l : ByteStr, 58 ∉ base64urlEncode l
  | [] => by simp [base64urlEncode]
  | [a] => by simp [base64urlEncode, colon_ne_b64Char]
  | [a, b] => by simp [base64urlEncode, colon_ne_b64Char]
  | a :: b :: c :: rest => by
      simp [base64urlEncode, colon_ne_b64Char, colon_not_mem_base64urlEncode rest]

/-- `encodeSegment` never emits a colon byte. -/
theorem colon_not_mem_encodeSegment (l : ByteStr) : 58 ∉ encodeSegment l :=
  colon_not_mem_base64urlEncode l

/-- `decodeSegment` inverts `encodeSegment` on byte sequences. -/
theorem decodeSegment_encodeSegment (l : ByteStr) (hl : IsBytes l) :
    decodeSegment (encodeSegment l) = some l :=
  base64urlDecode_encode l hl

/-- `encodeSegment` is injective on byte sequences. -/
theorem encodeSegment_inj {x y : ByteStr} (hx : IsBytes x) (hy : IsBytes y)
    (h : encodeSegment x = encodeSegment y) : x = y := by
  have := decodeSegment_encodeSegment x hx
  rw [h, decodeSegment_encodeSegment y hy] at this
  exact (Option.some.injEq _ _ ▸ this).symm

/-! ## Colon-framed segments are unambiguous -/

/-- Two colon-free segments followed by a colon frame identically only if
they are equal (so the key layout is unambiguous). -/
theorem append_sep_inj {A B s t : ByteStr} (hA : 58 ∉ A) (hB : 58 ∉ B)
    (h : A ++ 58 :: s = B ++ 58 :: t) : A = B ∧ s = t := by
  induction A generalizing B with
  | nil =>
      cases B with
      | nil => simpa using h
      | cons b B' =>
          simp only [List.nil_append, List.cons_append, List.cons.injEq] at h
          exact absurd (h.1 ▸ List.mem_cons_self b B') hB
  | cons a A' ih =>
      cases B with
      | nil =>
          simp only [List.nil_append, List.cons_append, List.cons.injEq] at h
          exact absurd (h.1 ▸ List.mem_cons_self a A') hA
      | cons b B' =>
          simp only [List.cons_append, List.cons.injEq] at h
          have step := ih (fun hm => hA (List.mem_cons_of_mem a hm))
            (fun hm => hB (List.mem_cons_of_mem b hm)) h.2
          simp [h.1, step.1, step.2]

/-- Prefix version of `append_sep_inj`: a colon-terminated colon-free segment
is a prefix of another colon-framed sequence only at a segment boundary. -/
theorem sep_prefix_iff {A B x y : ByteStr} (hA : 58 ∉ A) (hB : 58 ∉ B) :
    A ++ 58 :: x <+: B ++ 58 :: y ↔ A = B ∧ x <+: y := by
  constructor
  · rintro ⟨r, hr⟩
    rw [List.append_assoc] at hr
    have h := append_sep_inj hA hB (by simpa using hr)
    exact ⟨h.1, ⟨r, h.2⟩⟩
  · rintro ⟨rfl, r, hr⟩
    exact ⟨r, by simp [← hr]⟩

/-- Leaf version: a colon-terminated colon-free segment is a prefix of
`B ++ 58 :: y` exactly when it equals `B`. -/
theorem sep_prefix_end_iff {A B y : ByteStr} (hA : 58 ∉ A) (hB : 58 ∉ B) :
    A ++ [58] <+: B ++ 58 :: y ↔ A = B := by
  have h : A ++ [58] = A ++ 58 :: ([] : ByteStr) := rfl
  rw [h, sep_prefix_iff hA hB]
  simp

/-! ## `splitOnByte` on framed sequences -/

/-- `splitOnByte` never returns an empty list of segments. -/
theorem splitOnByte_ne_nil (sep : Nat) : ∀ l : ByteStr, splitOnByte sep l ≠ []
  | [] => by simp [splitOnByte]
  | b :: rest => by
      rw [splitOnByte]
      cases h : splitOnByte sep rest with
      | nil => simp
      | cons seg segs => by_cases hb : b = sep <;> simp [hb]

/-- Splitting a separator-free string yields that single segment. -/
theorem splitOnByte_no_sep {sep : Nat} : ∀ {A : ByteStr}, sep ∉ A →
    splitOnByte sep A = [A]
  | [], _ => rfl
  | a :: A', hA => by
      have hA' : sep ∉ A' := fun hm => hA (List.mem_cons_of_mem a hm)
      have ha : ¬a = sep := fun h => hA (h ▸ List.mem_cons_self a A')
      simp [splitOnByte, splitOnByte_no_sep hA', ha]

/-- Splitting peels one separator-free segment at a time. -/
theorem splitOnByte_append_sep {sep : Nat} : ∀ {A : ByteStr} (rest : ByteStr), sep ∉ A →
    splitOnByte sep (A ++ sep :: rest) = A :: splitOnByte sep rest
  | [], rest, _ => by
      rw [List.nil_append, splitOnByte]
      cases h : splitOnByte sep rest with
      | nil => exact absurd h (splitOnByte_ne_nil sep rest)
      | cons seg segs => simp
  | a :: A', rest, hA => by
      have hA' : sep ∉ A' := fun hm => hA (List.mem_cons_of_mem a hm)
      have ha : ¬a = sep := fun h => hA (h ▸ List.mem_cons_self a A')
      rw [List.cons_append, splitOnByte, splitOnByte_append_sep rest hA']
      simp [ha]

/-! ## Decimal digits -/

/-- `natToDecimal` never contains a colon byte (digits are 48–57). -/
theorem colon_not_mem_natToDecimal (n : Nat) : 58 ∉ natToDecimal n := by
  unfold natToDecimal
  split
  · simp
  · intro hm
    simp only [List.mem_reverse, List.mem_map] at hm
    obtain ⟨d, hd, hval⟩ := hm
    have := Nat.digits_lt_base (by omega) hd
    omega

/-- Decoding helper: digit bytes back to the digit list. -/
theorem natToDecimal_digits {n : Nat} (hn : n ≠ 0) :
    (natToDecimal n).reverse.map (fun b => b - 48) = Nat.digits 10 n := by
  unfold natToDecimal
  rw [if_neg hn]
  simp only [List.reverse_reverse, List.map_map]
  have : ((fun b => b - 48) ∘ fun d => 48 + d) = id := by
    funext d; simp
  rw [this, List.map_id]

/-! ## Store lemmas -/

/-- Looking up the key just written by `redisSetEx`. -/
theorem kvLookup_redisSetEx_self {α : Type} (st : Store α) (now : Nat) (k : ByteStr)
    (v : StoredVal α) (ttl : Nat) :
    kvLookup (redisSetEx st now k v ttl) k = some ⟨v, now + ttl * 1000⟩ := by
  simp [redisSetEx, kvLookup]

/-- `redisExpire` only rewrites the expiry of the targeted key. -/
theorem kvLookup_redisExpire {α : Type} (st : Store α) (now ttl : Nat) (k : ByteStr) :
    kvLookup (redisExpire st now k ttl) k =
      (kvLookup st k).map (fun e => ⟨e.value, now + ttl * 1000⟩) := by
  induction st with
  | nil => rfl
  | cons p rest ih =>
      obtain ⟨k', e⟩ := p
      by_cases hk : k' = k
      · subst hk
        simp [redisExpire, kvLookup]
      · simp [redisExpire, kvLookup, hk, ih]

/-- `redisDel` removes the targeted key. -/
theorem kvLookup_redisDel {α : Type} (st : Store α) (k : ByteStr) :
    kvLookup (redisDel st k) k = none := by
  induction st with
  | nil => rfl
  | cons p rest ih =>
      obtain ⟨k', e⟩ := p
      by_cases hk : k' = k
      · simpa [redisDel, hk] using ih
      · simpa [redisDel, kvLookup, hk] using ih

/-- Unfolding a successful `redisGet`. -/
theorem redisGet_eq_some {α : Type} {st : Store α} {now : Nat} {k : ByteStr}
    {v : StoredVal α} (h : redisGet st now k = some v) :
    ∃ e, kvLookup st k = some e ∧ e.value = v ∧ now < e.expiresAt := by
  unfold redisGet at h
  split at h
  · rename_i e he
    split at h
    · rename_i ht
      injection h with h'
      exact ⟨e, he, h', ht⟩
    · exact absurd h (by simp)
  · exact absurd h (by simp)

/-- `natToDecimal` is injective: decimal digit strings identify their number. -/
theorem natToDecimal_inj {m n : Nat} (h : natToDecimal m = natToDecimal n) : m = n := by
  by_cases hm : m = 0 <;> by_cases hn : n = 0
  · omega
  · exfalso
    unfold natToDecimal at h
    rw [if_pos hm, if_neg hn] at h
    have h' : List.map (fun d => 48 + d) (Nat.digits 10 n) = [48] := by
      have := congrArg List.reverse h
      simpa using this.symm
    rcases hd : Nat.digits 10 n with _ | ⟨d, rest⟩
    · rw [hd] at h'
      simp at h'
    · rw [hd] at h'
      simp only [List.map_cons, List.cons.injEq] at h'
      obtain ⟨hd48, hrest⟩ := h'
      have hrest' : rest = [] := by simpa using hrest
      have hv := Nat.ofDigits_digits 10 n
      rw [hd, hrest', show d = 0 by omega] at hv
      simp [Nat.ofDigits] at hv
      omega
  · exfalso
    unfold natToDecimal at h
    rw [if_neg hm, if_pos hn] at h
    have h' : List.map (fun d => 48 + d) (Nat.digits 10 m) = [48] := by
      have := congrArg List.reverse h
      simpa using this
    rcases hd : Nat.digits 10 m with _ | ⟨d, rest⟩
    · rw [hd] at h'
      simp at h'
    · rw [hd] at h'
      simp only [List.map_cons, List.cons.injEq] at h'
      obtain ⟨hd48, hrest⟩ := h'
      have hrest' : rest = [] := by simpa using hrest
      have hv := Nat.ofDigits_digits 10 m
      rw [hd, hrest', show d = 0 by omega] at hv
      simp [Nat.ofDigits] at hv
      omega
  · have := congrArg (fun l => l.reverse.map (fun b => b - 48)) h
    simp only [natToDecimal_digits hm, natToDecimal_digits hn] at this
    have := congrArg (Nat.ofDigits 10) this
    rwa [Nat.ofDigits_digits, Nat.ofDigits_digits] at this

/-! ## Key structure -/

/-- Cancelling a common literal key fragment on the left of a prefix test. -/
theorem prefix_cancel_left {L x y : ByteStr} : L ++ x <+: L ++ y ↔ x <+: y := by
  constructor
  · rintro ⟨r, hr⟩
    rw [List.append_assoc] at hr
    exact ⟨r, (List.append_right_inj L).mp hr⟩
  · rintro ⟨r, hr⟩
    exact ⟨r, by rw [List.append_assoc, hr]⟩

/-- `listCacheKey` in right-nested colon-framed normal form. -/
theorem listCacheKey_eq (hash : ByteStr → ByteStr) (t b p : ByteStr)
    (c : Option ByteStr) (m : Nat) :
    listCacheKey hash t b p c m =
      (listCacheKeyPrefixBytes ++ [58]) ++
        (hash t ++ 58 :: (encodeSegment b ++ 58 :: (encodeSegment p ++
          58 :: (encodeSegment (c.getD []) ++ 58 :: natToDecimal m)))) := by
  unfold listCacheKey listCacheBucketNamespace
  simp [List.append_assoc]

/-- `listCacheBucketNamespace ++ ":"` in the same normal form. -/
theorem listCacheBucketNamespace_pattern_eq (hash : ByteStr → ByteStr)
    (t b : ByteStr) :
    listCacheBucketNamespace hash t b ++ [58] =
      (listCacheKeyPrefixBytes ++ [58]) ++
        (hash t ++ 58 :: (encodeSegment b ++ [58])) := by
  unfold listCacheBucketNamespace
  simp [List.append_assoc]

/-- The exact-prefix scan pattern in the same normal form. -/
theorem exact_pattern_eq (hash : ByteStr → ByteStr) (t b q : ByteStr) :
    listCacheBucketNamespace hash t b ++ 58 :: (encodeSegment q ++ [58]) =
      (listCacheKeyPrefixBytes ++ [58]) ++
        (hash t ++ 58 :: (encodeSegment b ++ 58 :: (encodeSegment q ++ [58]))) := by
  unfold listCacheBucketNamespace
  simp [List.append_assoc]

/-- The namespace scan pattern `{ns}:*` matches a derived cache key exactly
when the key's hashed token and bucket agree with the namespace. -/
theorem ns_pattern_matches (hash : ByteStr → ByteStr) (hhex : ∀ t, 58 ∉ hash t)
    (tok bucket : ByteStr) (hb : IsBytes bucket) (e : CacheTuple)
    (heb : IsBytes e.bucket) :
    (listCacheBucketNamespace hash tok bucket ++ [58]) <+: tupleKey hash e ↔
      hash e.token = hash tok ∧ e.bucket = bucket := by
  unfold tupleKey
  rw [listCacheKey_eq, listCacheBucketNamespace_pattern_eq, prefix_cancel_left,
    sep_prefix_iff (hhex tok) (hhex e.token),
    sep_prefix_end_iff (colon_not_mem_encodeSegment bucket)
      (colon_not_mem_encodeSegment e.bucket)]
  constructor
  · rintro ⟨h1, h2⟩
    exact ⟨h1.symm, (encodeSegment_inj hb heb h2).symm⟩
  · rintro ⟨h1, h2⟩
    exact ⟨h1.symm, by rw [h2]⟩

/-- The exact-prefix scan pattern `{ns}:{enc q}:*` matches a derived cache
key exactly when hashed token, bucket and cached prefix all agree. -/
theorem exact_pattern_matches (hash : ByteStr → ByteStr) (hhex : ∀ t, 58 ∉ hash t)
    (tok bucket q : ByteStr) (hb : IsBytes bucket) (hq : IsBytes q) (e : CacheTuple)
    (heb : IsBytes e.bucket) (hep : IsBytes e.pfx) :
    (listCacheBucketNamespace hash tok bucket ++ 58 :: (encodeSegment q ++ [58]))
        <+: tupleKey hash e ↔
      hash e.token = hash tok ∧ e.bucket = bucket ∧ e.pfx = q := by
  unfold tupleKey
  rw [listCacheKey_eq, exact_pattern_eq, prefix_cancel_left,
    sep_prefix_iff (hhex tok) (hhex e.token),
    sep_prefix_iff (colon_not_mem_encodeSegment bucket)
      (colon_not_mem_encodeSegment e.bucket),
    sep_prefix_end_iff (colon_not_mem_encodeSegment q)
      (colon_not_mem_encodeSegment e.pfx)]
  constructor
  · rintro ⟨h1, h2, h3⟩
    exact ⟨h1.symm, (encodeSegment_inj hb heb h2).symm, (encodeSegment_inj hq hep h3).symm⟩
  · rintro ⟨h1, h2, h3⟩
    exact ⟨h1.symm, by rw [h2], by rw [h3]⟩

/-- `readPrefixFromListCacheKey` recovers the prefix component of every
derived cache key. -/
theorem readPrefix_tupleKey (hash : ByteStr → ByteStr) (hhex : ∀ t, 58 ∉ hash t)
    (e : CacheTuple) (hep : IsBytes e.pfx) :
    readPrefixFromListCacheKey (tupleKey hash e) = some e.pfx := by
  unfold readPrefixFromListCacheKey tupleKey
  rw [listCacheKey_eq]
  rw [if_pos (List.isPrefixOf_iff_prefix.mpr (List.prefix_append _ _))]
  rw [List.drop_left]
  rw [splitOnByte_append_sep _ (hhex e.token),
    splitOnByte_append_sep _ (colon_not_mem_encodeSegment e.bucket),
    splitOnByte_append_sep _ (colon_not_mem_encodeSegment e.pfx),
    splitOnByte_append_sep _ (colon_not_mem_encodeSegment (e.cursor.getD [])),
    splitOnByte_no_sep (colon_not_mem_natToDecimal e.maxKeys)]
  exact decodeSegment_encodeSegment e.pfx hep

/-! ## Byte-closure of the routes helpers -/

/-- Concatenation preserves being a byte string. -/
theorem IsBytes_append {x y : ByteStr} (hx : IsBytes x) (hy : IsBytes y) :
    IsBytes (x ++ y) := by
  intro b hb
  rcases List.mem_append.mp hb with h | h
  · exact hx b h
  · exact hy b h

/-- The empty string is a byte string. -/
theorem IsBytes_nil : IsBytes [] := by
  intro b hb
  simp at hb

/-- The slash byte is a byte string. -/
theorem IsBytes_slash : IsBytes [47] := by
  intro b hb
  simp at hb
  omega

/-- `normalizePrefix` preserves being a byte string. -/
theorem IsBytes_normalizePrefix {p : ByteStr} (hp : IsBytes p) :
    IsBytes (normalizePrefix p) := by
  unfold normalizePrefix
  split_ifs
  · exact IsBytes_nil
  · exact hp
  · exact IsBytes_append hp IsBytes_slash

/-- `getParentPrefixFromObjectKey` preserves being a byte string. -/
theorem IsBytes_getParentPrefixFromObjectKey : ∀ {k : ByteStr}, IsBytes k →
    IsBytes (getParentPrefixFromObjectKey k)
  | [], _ => IsBytes_nil
  | b :: rest, hk => by
      unfold getParentPrefixFromObjectKey
      split_ifs
      · intro x hx
        rcases List.mem_cons.mp hx with h | h
        · exact h ▸ hk b (List.mem_cons_self b rest)
        · exact IsBytes_getParentPrefixFromObjectKey
            (fun y hy => hk y (List.mem_cons_of_mem b hy)) x h
      · exact IsBytes_slash
      · exact IsBytes_nil

/-- Every byte of a `splitOnByte` segment comes from the original string. -/
theorem mem_splitOnByte_mem {sep : Nat} : ∀ {l s : ByteStr},
    s ∈ splitOnByte sep l → ∀ b ∈ s, b ∈ l
  | [], s, hs => by
      simp only [splitOnByte, List.mem_singleton] at hs
      subst hs
      intro b hb
      simp at hb
  | a :: rest, s, hs => by
      rw [splitOnByte] at hs
      cases hsp : splitOnByte sep rest with
      | nil => exact absurd hsp (splitOnByte_ne_nil sep rest)
      | cons seg segs =>
          rw [hsp] at hs
          have hs' : s ∈ (if a = sep then [] :: seg :: segs else (a :: seg) :: segs) := hs
          by_cases ha : a = sep
          · rw [if_pos ha] at hs'
            rcases List.mem_cons.mp hs' with h | h
            · subst h
              intro b hb
              simp at hb
            · intro b hb
              exact List.mem_cons_of_mem a
                (mem_splitOnByte_mem (by rw [hsp]; exact h) b hb)
          · rw [if_neg ha] at hs'
            rcases List.mem_cons.mp hs' with h | h
            · subst h
              intro b hb
              rcases List.mem_cons.mp hb with h' | h'
              · exact h' ▸ List.mem_cons_self a rest
              · exact List.mem_cons_of_mem a
                  (mem_splitOnByte_mem (by rw [hsp]; exact List.mem_cons_self seg segs) b h')
            · intro b hb
              exact List.mem_cons_of_mem a
                (mem_splitOnByte_mem (by rw [hsp]; exact List.mem_cons_of_mem seg h) b hb)

/-- The ancestor-prefix fold produces only byte strings when fed them. -/
theorem ancestorStep_foldl_bytes : ∀ (parts : List ByteStr)
    (acc : List ByteStr × ByteStr),
    (∀ q ∈ acc.1, IsBytes q) → IsBytes acc.2 → (∀ s ∈ parts, IsBytes s) →
    ∀ q ∈ (parts.foldl ancestorStep acc).1, IsBytes q
  | [], _, h1, _, _ => h1
  | part :: rest, acc, h1, h2, h3 => by
      rw [List.foldl_cons]
      have hstep : IsBytes (acc.2 ++ part ++ [47]) :=
        IsBytes_append (IsBytes_append h2 (h3 part (List.mem_cons_self part rest)))
          IsBytes_slash
      refine ancestorStep_foldl_bytes rest (ancestorStep acc part) ?_ hstep
        (fun s hs => h3 s (List.mem_cons_of_mem part hs))
      intro q hq
      simp only [ancestorStep] at hq
      rcases List.mem_append.mp hq with h | h
      · exact h1 q h
      · have hq' : q = acc.2 ++ part ++ [47] := by simpa using h
        exact hq' ▸ hstep

/-- Every ancestor prefix of a byte-string prefix is a byte string. -/
theorem IsBytes_mem_getAncestorPrefixes {p : ByteStr} (hp : IsBytes p) :
    ∀ q ∈ getAncestorPrefixes p, IsBytes q := by
  unfold getAncestorPrefixes
  split_ifs
  · intro q hq
    simp only [List.mem_singleton] at hq
    exact hq ▸ IsBytes_nil
  · refine ancestorStep_foldl_bytes _ _ ?_ IsBytes_nil ?_
    · intro q hq
      simp only [List.mem_singleton] at hq
      exact hq ▸ IsBytes_nil
    · intro s hs
      have := List.mem_filter.mp hs
      exact fun b hb =>
        IsBytes_normalizePrefix hp b (mem_splitOnByte_mem this.1 b hb)

/-! ## Scan and deletion membership -/

/-- Membership after `redisDelMany`. -/
theorem mem_redisDelMany {α : Type} (st : Store α) (keys : List ByteStr)
    (p : ByteStr × Entry α) :
    p ∈ redisDelMany st keys ↔ p ∈ st ∧ p.1 ∉ keys := by
  unfold redisDelMany
  simp [List.mem_filter]

/-- Membership of a key in a namespace scan. -/
theorem mem_scanKeysPrefix {α : Type} (st : Store α) (pat k : ByteStr) :
    k ∈ scanKeysPrefix st pat ↔ (∃ v, (k, v) ∈ st) ∧ pat <+: k := by
  unfold scanKeysPrefix
  simp only [List.mem_map, List.mem_filter]
  constructor
  · rintro ⟨⟨k', v⟩, ⟨hmem, hpre⟩, rfl⟩
    exact ⟨⟨v, hmem⟩, List.isPrefixOf_iff_prefix.mp hpre⟩
  · rintro ⟨⟨v, hmem⟩, hpre⟩
    exact ⟨(k, v), ⟨hmem, List.isPrefixOf_iff_prefix.mpr hpre⟩, rfl⟩

/-- A derived cache key is gathered by the exact-prefix scans iff its hashed
token and bucket match the namespace and its cached prefix is one of the
requested exact prefixes. -/
theorem tupleKey_mem_exactScanKeys (hash : ByteStr → ByteStr) (hhex : ∀ t, 58 ∉ hash t)
    (tok bucket : ByteStr) (hbucket : IsBytes bucket)
    (E : List CacheTuple) (ent : CacheTuple → Entry ListObjectsResponse)
    (exactPfxs : List ByteStr) (hexact : ∀ q ∈ exactPfxs, IsBytes q)
    (e : CacheTuple) (he : e ∈ E) (heb : IsBytes e.bucket) (hep : IsBytes e.pfx) :
    tupleKey hash e ∈
        exactScanKeys hash (E.map fun x => (tupleKey hash x, ent x)) tok bucket
          exactPfxs ↔
      hash e.token = hash tok ∧ e.bucket = bucket ∧ e.pfx ∈ exactPfxs := by
  have hmemst : (tupleKey hash e, ent e) ∈ E.map (fun x => (tupleKey hash x, ent x)) :=
    List.mem_map.mpr ⟨e, he, rfl⟩
  unfold exactScanKeys
  simp only [List.mem_flatten, List.mem_map]
  constructor
  · rintro ⟨l, ⟨q, hq, rfl⟩, hmem⟩
    rw [mem_scanKeysPrefix] at hmem
    have hm := (exact_pattern_matches hash hhex tok bucket q hbucket (hexact q hq)
      e heb hep).mp hmem.2
    exact ⟨hm.1, hm.2.1, hm.2.2 ▸ hq⟩
  · rintro ⟨h1, h2, h3⟩
    refine ⟨_, ⟨e.pfx, h3, rfl⟩, ?_⟩
    rw [mem_scanKeysPrefix]
    exact ⟨⟨ent e, hmemst⟩, (exact_pattern_matches hash hhex tok bucket e.pfx hbucket
      (hexact _ h3) e heb hep).mpr ⟨h1, h2, rfl⟩⟩

/-- A derived cache key is gathered by the prefixes-with-children scan iff
some children were requested, its hashed token and bucket match the
namespace, and its cached prefix starts with one of the requested prefixes. -/
theorem tupleKey_mem_childScanKeys (hash : ByteStr → ByteStr) (hhex : ∀ t, 58 ∉ hash t)
    (tok bucket : ByteStr) (hbucket : IsBytes bucket)
    (E : List CacheTuple) (ent : CacheTuple → Entry ListObjectsResponse)
    (childPfxs : List ByteStr)
    (e : CacheTuple) (he : e ∈ E) (heb : IsBytes e.bucket) (hep : IsBytes e.pfx) :
    tupleKey hash e ∈
        childScanKeys hash (E.map fun x => (tupleKey hash x, ent x)) tok bucket
          childPfxs ↔
      childPfxs ≠ [] ∧ hash e.token = hash tok ∧ e.bucket = bucket ∧
        ∃ q ∈ childPfxs, q <+: e.pfx := by
  have hmemst : (tupleKey hash e, ent e) ∈ E.map (fun x => (tupleKey hash x, ent x)) :=
    List.mem_map.mpr ⟨e, he, rfl⟩
  unfold childScanKeys
  by_cases hempty : childPfxs.isEmpty
  · rw [if_pos hempty]
    have : childPfxs = [] := by simpa using hempty
    simp [this]
  · rw [if_neg hempty]
    have hne : childPfxs ≠ [] := by simpa using hempty
    rw [List.mem_filter, mem_scanKeysPrefix]
    constructor
    · rintro ⟨⟨⟨v, hv⟩, hpre⟩, hcond⟩
      have hm := (ns_pattern_matches hash hhex tok bucket hbucket e heb).mp hpre
      rw [readPrefix_tupleKey hash hhex e hep] at hcond
      simp only [List.any_eq_true, List.isPrefixOf_iff_prefix] at hcond
      obtain ⟨q, hq, hqq⟩ := hcond
      exact ⟨hne, hm.1, hm.2, q, hq, hqq⟩
    · rintro ⟨_, h1, h2, q, hq, hqq⟩
      refine ⟨⟨⟨ent e, hmemst⟩,
        (ns_pattern_matches hash hhex tok bucket hbucket e heb).mpr ⟨h1, h2⟩⟩, ?_⟩
      rw [readPrefix_tupleKey hash hhex e hep]
      simp only [List.any_eq_true, List.isPrefixOf_iff_prefix]
      exact ⟨q, hq, hqq⟩

/-- The entry of a tuple survives `invalidateCachedListObjectsByPrefix`
exactly when its key matches neither the exact-prefix set nor the
prefixes-with-children set of its session+bucket namespace. -/
theorem mem_invalidateByPrefix_iff (cfg : AtriumConfig) (hash : ByteStr → ByteStr)
    (hhex : ∀ t, 58 ∉ hash t) (henabled : cfg.S3_LIST_CACHE_ENABLED = true)
    (tok bucket : ByteStr) (hbucket : IsBytes bucket)
    (E : List CacheTuple) (ent : CacheTuple → Entry ListObjectsResponse)
    (exactPfxs childPfxs : List ByteStr) (hexact : ∀ q ∈ exactPfxs, IsBytes q)
    (e : CacheTuple) (he : e ∈ E) (heb : IsBytes e.bucket) (hep : IsBytes e.pfx) :
    (tupleKey hash e, ent e) ∈
        (invalidateCachedListObjectsByPrefix cfg hash
          (E.map fun x => (tupleKey hash x, ent x)) tok bucket exactPfxs childPfxs).1 ↔
      ¬(hash e.token = hash tok ∧ e.bucket = bucket ∧
        (e.pfx ∈ exactPfxs ∨ (childPfxs ≠ [] ∧ ∃ q ∈ childPfxs, q <+: e.pfx))) := by
  have hmemst : (tupleKey hash e, ent e) ∈ E.map (fun x => (tupleKey hash x, ent x)) :=
    List.mem_map.mpr ⟨e, he, rfl⟩
  unfold invalidateCachedListObjectsByPrefix
  rw [if_neg (by simp [henabled])]
  simp only [mem_redisDelMany, hmemst, true_and, List.mem_dedup, List.mem_append]
  rw [tupleKey_mem_exactScanKeys hash hhex tok bucket hbucket E ent exactPfxs hexact
      e he heb hep,
    tupleKey_mem_childScanKeys hash hhex tok bucket hbucket E ent childPfxs e he heb hep]
  apply not_congr
  constructor
  · rintro (⟨h1, h2, h3⟩ | ⟨hne, h1, h2, hex⟩)
    · exact ⟨h1, h2, Or.inl h3⟩
    · exact ⟨h1, h2, Or.inr ⟨hne, hex⟩⟩
  · rintro ⟨h1, h2, h3 | ⟨hne, hex⟩⟩
    · exact Or.inl ⟨h1, h2, h3⟩
    · exact Or.inr ⟨hne, h1, h2, hex⟩

/-! ## Lock machine invariants -/

namespace LockMachine

/-- Swapping twice is the identity. -/
theorem swap_swap (c : Sys) : swap (swap c) = c := rfl

/-- Stepping worker `b` is stepping worker `a` of the swapped system. -/
theorem stepSys_false_eq_swap (c : Sys) :
    stepSys c false = swap (stepSys (swap c) true) := rfl

/-- The invariant is symmetric in the two workers. -/
theorem Inv.swapped {widA widB : ByteStr} {c : Sys} (h : Inv widA widB c) :
    Inv widB widA (swap c) :=
  ⟨h.widB_eq, h.widA_eq, h.preB, h.preA, h.lockedB, h.lockedA, h.freshB, h.freshA,
    h.holdB, h.holdA, fun w hw => (h.lock_inv w hw).symm, h.obsB, h.obsA,
    h.blockedB, h.blockedA⟩

/-- The invariant is preserved when worker `a` takes a step. -/
theorem Inv_step_true {widA widB : ByteStr} (hw : widA ≠ widB) {c : Sys}
    (h : Inv widA widB c) : Inv widA widB (stepSys c true) := by
  obtain ⟨⟨lk, stored⟩, ⟨wa, pa, ca⟩, ⟨wb, pb, cb⟩⟩ := c
  obtain ⟨hwa, hwb, preA, preB, lockedA, lockedB, freshA, freshB, holdA, holdB,
    lock_inv, obsA, obsB, blockedA, blockedB⟩ := h
  replace hwa : wa = widA := hwa
  replace hwb : wb = widB := hwb
  subst hwa
  subst hwb
  cases pa with
  | checkFresh =>
      cases stored with
      | false =>
          rw [show stepSys ⟨⟨lk, false⟩, ⟨wa, .checkFresh, ca⟩, ⟨wb, pb, cb⟩⟩ true
              = ⟨⟨lk, false⟩, ⟨wa, .acquire, ca⟩, ⟨wb, pb, cb⟩⟩ from by
            simp [stepSys, stepProc]]
          refine ⟨rfl, rfl, fun _ => preA (Or.inl rfl), preB,
            fun hcon => by simp at hcon, lockedB,
            fun hcon => by simp at hcon, freshB,
            fun hcon => by simp [isHolding] at hcon, holdB, ?_,
            fun o hcon => by simp at hcon, obsB,
            fun hcon => by simp at hcon, ?_⟩
          · rintro w hw'
            rcases lock_inv w hw' with ⟨_, habs⟩ | hb
            · simp [isHolding] at habs
            · exact Or.inr hb
          · intro hpb
            rcases blockedB hpb with habs | habs
            · simp [isHolding] at habs
            · simp at habs
      | true =>
          rw [show stepSys ⟨⟨lk, true⟩, ⟨wa, .checkFresh, ca⟩, ⟨wb, pb, cb⟩⟩ true
              = ⟨⟨lk, true⟩, ⟨wa, .done .alreadyFresh, ca⟩, ⟨wb, pb, cb⟩⟩ from by
            simp [stepSys, stepProc]]
          refine ⟨rfl, rfl, fun hcon => by simp at hcon, preB,
            fun hcon => by simp at hcon, lockedB,
            fun _ => preA (Or.inl rfl), freshB,
            fun hcon => by simp [isHolding] at hcon, holdB, ?_,
            fun o hcon => by simp at hcon, obsB,
            fun hcon => by simp at hcon, ?_⟩
          · rintro w hw'
            rcases lock_inv w hw' with ⟨_, habs⟩ | hb
            · simp [isHolding] at habs
            · exact Or.inr hb
          · intro hpb
            rcases blockedB hpb with habs | habs
            · simp [isHolding] at habs
            · simp at habs
  | acquire =>
      cases lk with
      | none =>
          rw [show stepSys ⟨⟨none, stored⟩, ⟨wa, .acquire, ca⟩, ⟨wb, pb, cb⟩⟩ true
              = ⟨⟨some wa, stored⟩, ⟨wa, .runStore, ca⟩, ⟨wb, pb, cb⟩⟩ from by
            simp [stepSys, stepProc]]
          refine ⟨rfl, rfl, fun hcon => by simp at hcon, preB,
            fun hcon => by simp at hcon, lockedB,
            fun hcon => by simp at hcon, freshB,
            fun _ => rfl, fun hb => absurd (holdB hb) (by simp), ?_,
            fun o hcon => by simp at hcon, obsB,
            fun hcon => by simp at hcon, fun _ => Or.inl rfl⟩
          rintro w hw'
          injection hw' with hww
          exact Or.inl ⟨hww.symm, rfl⟩
      | some w0 =>
          rw [show stepSys ⟨⟨some w0, stored⟩, ⟨wa, .acquire, ca⟩, ⟨wb, pb, cb⟩⟩ true
              = ⟨⟨some w0, stored⟩, ⟨wa, .done .alreadyLocked, ca⟩, ⟨wb, pb, cb⟩⟩ from by
            simp [stepSys, stepProc]]
          refine ⟨rfl, rfl, fun hcon => by simp at hcon, preB,
            fun _ => preA (Or.inr rfl), lockedB,
            fun hcon => by simp at hcon, freshB,
            fun hcon => by simp [isHolding] at hcon, holdB, ?_,
            fun o hcon => by simp at hcon, obsB, ?_, ?_⟩
          · rintro w hw'
            rcases lock_inv w hw' with ⟨_, habs⟩ | hb
            · simp [isHolding] at habs
            · exact Or.inr hb
          · intro _
            rcases lock_inv w0 rfl with ⟨_, habs⟩ | ⟨_, hb⟩
            · simp [isHolding] at habs
            · exact Or.inl hb
          · intro hpb
            rcases blockedB hpb with habs | habs
            · simp [isHolding] at habs
            · simp at habs
  | runStore =>
      rw [show stepSys ⟨⟨lk, stored⟩, ⟨wa, .runStore, ca⟩, ⟨wb, pb, cb⟩⟩ true
          = ⟨⟨lk, true⟩, ⟨wa, .readOwner, true⟩, ⟨wb, pb, cb⟩⟩ from by
        simp [stepSys, stepProc]]
      refine ⟨rfl, rfl, fun hcon => by simp at hcon, preB,
        fun hcon => by simp at hcon, lockedB,
        fun hcon => by simp at hcon, freshB,
        fun _ => holdA rfl, holdB, ?_,
        fun o hcon => by simp at hcon, obsB,
        fun hcon => by simp at hcon, ?_⟩
      · rintro w hw'
        rcases lock_inv w hw' with ⟨h1, _⟩ | hb
        · exact Or.inl ⟨h1, rfl⟩
        · exact Or.inr hb
      · intro hpb
        rcases blockedB hpb with _ | habs
        · exact Or.inl rfl
        · simp at habs
  | readOwner =>
      rw [show stepSys ⟨⟨lk, stored⟩, ⟨wa, .readOwner, ca⟩, ⟨wb, pb, cb⟩⟩ true
          = ⟨⟨lk, stored⟩, ⟨wa, .finishDel lk, ca⟩, ⟨wb, pb, cb⟩⟩ from by
        simp [stepSys, stepProc]]
      refine ⟨rfl, rfl, fun hcon => by simp at hcon, preB,
        fun hcon => by simp at hcon, lockedB,
        fun hcon => by simp at hcon, freshB,
        fun _ => holdA rfl, holdB, ?_,
        ?_, obsB,
        fun hcon => by simp at hcon, ?_⟩
      · rintro w hw'
        rcases lock_inv w hw' with ⟨h1, _⟩ | hb
        · exact Or.inl ⟨h1, rfl⟩
        · exact Or.inr hb
      · rintro o ho
        injection ho with ho'
        exact ho'.symm.trans (holdA rfl)
      · intro hpb
        rcases blockedB hpb with _ | habs
        · exact Or.inl rfl
        · simp at habs
  | finishDel obs =>
      have hobs : obs = some wa := obsA obs rfl
      have hlk : lk = some wa := holdA rfl
      subst hobs
      rw [show stepSys ⟨⟨lk, stored⟩, ⟨wa, .finishDel (some wa), ca⟩, ⟨wb, pb, cb⟩⟩ true
          = ⟨⟨none, stored⟩, ⟨wa, .done .calculated, ca⟩, ⟨wb, pb, cb⟩⟩ from by
        simp [stepSys, stepProc]]
      refine ⟨rfl, rfl, fun hcon => by simp at hcon, preB,
        fun hcon => by simp at hcon, lockedB,
        fun hcon => by simp at hcon, freshB,
        fun hcon => by simp [isHolding] at hcon, ?_,
        fun w hw' => by simp at hw',
        fun o hcon => by simp at hcon, obsB,
        fun hcon => by simp at hcon, fun _ => Or.inr rfl⟩
      intro hb
      have := (holdB hb).symm.trans hlk
      injection this with hww
      exact absurd hww.symm hw
  | done s =>
      exact ⟨rfl, rfl, preA, preB, lockedA, lockedB, freshA, freshB, holdA, holdB,
        lock_inv, obsA, obsB, blockedA, blockedB⟩

/-- The invariant is preserved by any scheduler step. -/
theorem Inv_step {widA widB : ByteStr} (hw : widA ≠ widB) {c : Sys}
    (h : Inv widA widB c) (ch : Bool) : Inv widA widB (stepSys c ch) := by
  cases ch
  · rw [stepSys_false_eq_swap]
    exact (Inv_step_true (fun e => hw e.symm) h.swapped).swapped
  · exact Inv_step_true hw h

/-- The invariant holds initially. -/
theorem Inv_init (widA widB : ByteStr) : Inv widA widB (initSys widA widB) := by
  refine ⟨rfl, rfl, fun _ => rfl, fun _ => rfl,
    fun hcon => by simp [initSys] at hcon, fun hcon => by simp [initSys] at hcon,
    fun hcon => by simp [initSys] at hcon, fun hcon => by simp [initSys] at hcon,
    fun hcon => by simp [initSys, isHolding] at hcon,
    fun hcon => by simp [initSys, isHolding] at hcon,
    fun w hw' => by simp [initSys] at hw',
    fun o hcon => by simp [initSys] at hcon,
    fun o hcon => by simp [initSys] at hcon,
    fun hcon => by simp [initSys] at hcon,
    fun hcon => by simp [initSys] at hcon⟩

/-- The invariant holds in every reachable configuration. -/
theorem Inv_run {widA widB : ByteStr} (hw : widA ≠ widB) :
    ∀ (sched : List Bool) (c : Sys), Inv widA widB c →
      Inv widA widB (runSys c sched)
  | [], _, h => h
  | ch :: rest, c, h => Inv_run hw rest (stepSys c ch) (Inv_step hw h ch)

/-- Once `a` holds (or has computed and released) while `b` is denied, this
persists: `a` can only advance towards `calculated` and `b` is finished. -/
theorem progress_a_step (c : Sys) (ch : Bool)
    (ha : isHolding c.a = true ∨ c.a.phase = .done .calculated)
    (hb : c.b.phase = .done .alreadyLocked) :
    (isHolding (stepSys c ch).a = true ∨ (stepSys c ch).a.phase = .done .calculated) ∧
      (stepSys c ch).b.phase = .done .alreadyLocked := by
  obtain ⟨⟨lk, stored⟩, ⟨wa, pa, ca⟩, ⟨wb, pb, cb⟩⟩ := c
  simp only at ha hb
  subst hb
  cases ch
  · exact ⟨ha, rfl⟩
  · rcases ha with ha | ha
    · cases pa with
      | runStore => exact ⟨Or.inl rfl, rfl⟩
      | readOwner => exact ⟨Or.inl rfl, rfl⟩
      | finishDel obs =>
          by_cases hobs : obs = some wa
          · rw [show stepSys ⟨⟨lk, stored⟩, ⟨wa, .finishDel obs, ca⟩,
                  ⟨wb, .done .alreadyLocked, cb⟩⟩ true
                = ⟨⟨none, stored⟩, ⟨wa, .done .calculated, ca⟩,
                  ⟨wb, .done .alreadyLocked, cb⟩⟩ from by
              simp [stepSys, stepProc, hobs]]
            exact ⟨Or.inr rfl, rfl⟩
          · rw [show stepSys ⟨⟨lk, stored⟩, ⟨wa, .finishDel obs, ca⟩,
                  ⟨wb, .done .alreadyLocked, cb⟩⟩ true
                = ⟨⟨lk, stored⟩, ⟨wa, .done .calculated, ca⟩,
                  ⟨wb, .done .alreadyLocked, cb⟩⟩ from by
              simp [stepSys, stepProc, hobs]]
            exact ⟨Or.inr rfl, rfl⟩
      | checkFresh => simp [isHolding] at ha
      | acquire => simp [isHolding] at ha
      | done s => simp [isHolding] at ha
    · subst ha
      exact ⟨Or.inr rfl, rfl⟩

/-- Mirror image of `progress_a_step`. -/
theorem progress_b_step (c : Sys) (ch : Bool)
    (hb : isHolding c.b = true ∨ c.b.phase = .done .calculated)
    (ha : c.a.phase = .done .alreadyLocked) :
    (isHolding (stepSys c ch).b = true ∨ (stepSys c ch).b.phase = .done .calculated) ∧
      (stepSys c ch).a.phase = .done .alreadyLocked := by
  have key := progress_a_step (swap c) (!ch) hb ha
  have hstep : stepSys c ch = swap (stepSys (swap c) (!ch)) := by
    cases ch
    · show stepSys c false = swap (stepSys (swap c) true)
      rw [stepSys_false_eq_swap]
    · show stepSys c true = swap (stepSys (swap c) false)
      rw [stepSys_false_eq_swap (swap c)]
      rfl
  rw [hstep]
  exact key

/-- `progress_a_step` along a whole schedule. -/
theorem progress_a_run : ∀ (sched : List Bool) (c : Sys),
    (isHolding c.a = true ∨ c.a.phase = .done .calculated) →
    c.b.phase = .done .alreadyLocked →
    ((isHolding (runSys c sched).a = true ∨
        (runSys c sched).a.phase = .done .calculated) ∧
      (runSys c sched).b.phase = .done .alreadyLocked)
  | [], _, ha, hb => ⟨ha, hb⟩
  | ch :: rest, c, ha, hb =>
      progress_a_run rest (stepSys c ch) (progress_a_step c ch ha hb).1
        (progress_a_step c ch ha hb).2

/-- `progress_b_step` along a whole schedule. -/
theorem progress_b_run : ∀ (sched : List Bool) (c : Sys),
    (isHolding c.b = true ∨ c.b.phase = .done .calculated) →
    c.a.phase = .done .alreadyLocked →
    ((isHolding (runSys c sched).b = true ∨
        (runSys c sched).b.phase = .done .calculated) ∧
      (runSys c sched).a.phase = .done .alreadyLocked)
  | [], _, hb, ha => ⟨hb, ha⟩
  | ch :: rest, c, hb, ha =>
      progress_b_run rest (stepSys c ch) (progress_b_step c ch hb ha).1
        (progress_b_step c ch hb ha).2

/-- Two workers never hold the lock at the same time. -/
theorem not_both_holding {widA widB : ByteStr} (hw : widA ≠ widB) {c : Sys}
    (h : Inv widA widB c) : ¬(isHolding c.a = true ∧ isHolding c.b = true) := by
  rintro ⟨ha, hb⟩
  have heq := (h.holdA ha).symm.trans (h.holdB hb)
  injection heq with hww
  exact hw hww

/-- A worker that attempted the acquire but has not released is either the
current holder or was denied. -/
theorem pastAcquire_cases (p : Proc) (hpa : isPastAcquire p = true)
    (hda : isDelDone p = false) :
    isHolding p = true ∨ p.phase = .done .alreadyLocked := by
  obtain ⟨w, ph, comp⟩ := p
  cases ph with
  | runStore => exact Or.inl rfl
  | readOwner => exact Or.inl rfl
  | finishDel o => exact Or.inl rfl
  | done s =>
      cases s with
      | calculated => simp [isDelDone] at hda
      | alreadyLocked => exact Or.inr rfl
      | alreadyFresh => simp [isPastAcquire] at hpa
  | checkFresh => simp [isPastAcquire] at hpa
  | acquire => simp [isPastAcquire] at hpa

/-- When both workers have attempted the acquire and neither has finished a
computing run, exactly one holds the lock and the other was denied. -/
theorem overlap_dichotomy {widA widB : ByteStr} (hw : widA ≠ widB) {c : Sys}
    (h : Inv widA widB c)
    (hpa : isPastAcquire c.a = true) (hpb : isPastAcquire c.b = true)
    (hda : isDelDone c.a = false) (hdb : isDelDone c.b = false) :
    (isHolding c.a = true ∧ c.b.phase = .done .alreadyLocked) ∨
      (isHolding c.b = true ∧ c.a.phase = .done .alreadyLocked) := by
  rcases pastAcquire_cases c.a hpa hda with ha | ha <;>
    rcases pastAcquire_cases c.b hpb hdb with hb | hb
  · exact absurd ⟨ha, hb⟩ (not_both_holding hw h)
  · exact Or.inl ⟨ha, hb⟩
  · exact Or.inr ⟨hb, ha⟩
  · rcases h.blockedA ha with hh | hh
    · rw [show isHolding c.b = false from by simp [isHolding, hb]] at hh
      exact absurd hh (by simp)
    · rw [hb] at hh
      exact absurd hh (by simp)

end LockMachine

/-! ## Claim theorems -/

/-- **C3.** In targeted mode with the cache enabled and a session token
present, a mutation deletes exactly the affected entries: after an upload of
object key `K`, precisely the entries of the session+bucket namespace whose
cached prefix lies on the ancestor chain of `K`'s parent directory; after a
recursive delete of prefix `P`, precisely those whose cached prefix lies on
the ancestor chain of `P` or starts with `P`. Every other entry — another
namespace, an unrelated prefix, a sibling prefix — remains present. -/
theorem C3_targeted_invalidation_exact (cfg : AtriumConfig) (hash : ByteStr → ByteStr)
    (hhex : ∀ t, 58 ∉ hash t)
    (henabled : cfg.S3_LIST_CACHE_ENABLED = true)
    (hmode : cfg.S3_LIST_CACHE_INVALIDATION_MODE = .targeted)
    (tok bucket : ByteStr) (hbucket : IsBytes bucket)
    (E : List CacheTuple) (ent : CacheTuple → Entry ListObjectsResponse)
    (hE : ∀ e ∈ E, WellFormedTuple e)
    (target : MutationTarget)
    (htarget : match target with
      | .object key => IsBytes key
      | .pfxDelete p => IsBytes p ∧ p ≠ []) :
    ∀ e ∈ E,
      ((tupleKey hash e, ent e) ∈
          invalidateListCacheForMutation cfg hash
            (E.map fun x => (tupleKey hash x, ent x)) (some tok) bucket target ↔
        ¬(hash e.token = hash tok ∧ e.bucket = bucket ∧
          (match target with
           | .object key =>
               e.pfx ∈ getAncestorPrefixes (getParentPrefixFromObjectKey key)
           | .pfxDelete p =>
               e.pfx ∈ getAncestorPrefixes (normalizePrefix p) ∨
                 normalizePrefix p <+: e.pfx))) := by
  intro e he
  obtain ⟨heb, hep, _⟩ := hE e he
  cases target with
  | object key =>
      simp only [invalidateListCacheForMutation, henabled, hmode, Bool.true_eq_false,
        if_false]
      rw [mem_invalidateByPrefix_iff cfg hash hhex henabled tok bucket hbucket E ent
        (getAncestorPrefixes (getParentPrefixFromObjectKey key)) []
        (IsBytes_mem_getAncestorPrefixes (IsBytes_getParentPrefixFromObjectKey htarget))
        e he heb hep]
      simp
  | pfxDelete p =>
      obtain ⟨hpb, hpne⟩ := htarget
      have hnorm_ne : normalizePrefix p ≠ [] := by
        unfold normalizePrefix
        split_ifs
        · exact absurd (by assumption) hpne
        · exact (by assumption : ¬p = [])
        · simp
      simp only [invalidateListCacheForMutation, henabled, hmode, Bool.true_eq_false,
        if_false]
      rw [if_neg hnorm_ne]
      rw [mem_invalidateByPrefix_iff cfg hash hhex henabled tok bucket hbucket E ent
        (getAncestorPrefixes (normalizePrefix p)) [normalizePrefix p]
        (IsBytes_mem_getAncestorPrefixes (IsBytes_normalizePrefix hpb))
        e he heb hep]
      simp

namespace LockMachine

/-- **C2.** For each (bucket, credential-scope) pair, at most one worker
holds the computation lock at any time along any interleaving; a worker whose
`SET NX` finds the lock held returns `already-locked` without computing and
without touching the store, and such a worker has never computed; whenever
the conditional delete of the `finally` block fires (the read owner equals
the worker's own id), the stored lock really is that worker's; and two
overlapping `computeWithLock` runs — both acquire attempts made before
either release — finish with exactly one `calculated` and one
`already-locked` outcome. -/
theorem C2_lock_exclusivity (widA widB : ByteStr) (hw : widA ≠ widB) :
    (∀ sched : List Bool,
      ¬(isHolding (runSys (initSys widA widB) sched).a = true ∧
        isHolding (runSys (initSys widA widB) sched).b = true)) ∧
    (∀ (sh : Shared) (p : Proc) (w : ByteStr),
      p.phase = .acquire → sh.lock = some w →
      (stepProc sh p).2.phase = .done .alreadyLocked ∧
        (stepProc sh p).2.computed = p.computed ∧ (stepProc sh p).1 = sh) ∧
    (∀ sched : List Bool,
      ((runSys (initSys widA widB) sched).a.phase = .done .alreadyLocked →
        (runSys (initSys widA widB) sched).a.computed = false) ∧
      ((runSys (initSys widA widB) sched).b.phase = .done .alreadyLocked →
        (runSys (initSys widA widB) sched).b.computed = false)) ∧
    (∀ (sched : List Bool) (o : Option ByteStr),
      ((runSys (initSys widA widB) sched).a.phase = .finishDel o →
        o = some widA →
        (runSys (initSys widA widB) sched).sh.lock = some widA) ∧
      ((runSys (initSys widA widB) sched).b.phase = .finishDel o →
        o = some widB →
        (runSys (initSys widA widB) sched).sh.lock = some widB)) ∧
    (∀ s1 s2 : List Bool,
      isPastAcquire (runSys (initSys widA widB) s1).a = true →
      isPastAcquire (runSys (initSys widA widB) s1).b = true →
      isDelDone (runSys (initSys widA widB) s1).a = false →
      isDelDone (runSys (initSys widA widB) s1).b = false →
      ∀ sa sb : Status,
        (runSys (initSys widA widB) (s1 ++ s2)).a.phase = .done sa →
        (runSys (initSys widA widB) (s1 ++ s2)).b.phase = .done sb →
        ((sa = .calculated ∧ sb = .alreadyLocked) ∨
          (sa = .alreadyLocked ∧ sb = .calculated))) := by
  have hinv : ∀ sched : List Bool,
      Inv widA widB (runSys (initSys widA widB) sched) :=
    fun sched => Inv_run hw sched _ (Inv_init widA widB)
  refine ⟨fun sched => not_both_holding hw (hinv sched), ?_, ?_, ?_, ?_⟩
  · rintro ⟨lkk, stt⟩ ⟨wid, ph, comp⟩ w hp hl
    subst hp
    replace hl : lkk = some w := hl
    subst hl
    exact ⟨rfl, rfl, rfl⟩
  · exact fun sched => ⟨(hinv sched).lockedA, (hinv sched).lockedB⟩
  · intro sched o
    constructor
    · intro hph _
      exact (hinv sched).holdA (by simp [isHolding, hph])
    · intro hph _
      exact (hinv sched).holdB (by simp [isHolding, hph])
  · intro s1 s2 hpa hpb hda hdb sa sb hfa hfb
    have hsplit : runSys (initSys widA widB) (s1 ++ s2)
        = runSys (runSys (initSys widA widB) s1) s2 := by
      unfold runSys
      rw [List.foldl_append]
    rw [hsplit] at hfa hfb
    rcases overlap_dichotomy hw (hinv s1) hpa hpb hda hdb with ⟨hha, hlb⟩ | ⟨hhb, hla⟩
    · have prog := progress_a_run s2 _ (Or.inl hha) hlb
      rcases prog.1 with hh | hh
      · rw [show isHolding (runSys (runSys (initSys widA widB) s1) s2).a = false from by
          simp [isHolding, hfa]] at hh
        exact absurd hh (by simp)
      · left
        have h1 := hfa.symm.trans hh
        have h2 := hfb.symm.trans prog.2
        injection h1 with h1'
        injection h2 with h2'
        exact ⟨h1', h2'⟩
    · have prog := progress_b_run s2 _ (Or.inl hhb) hla
      rcases prog.1 with hh | hh
      · rw [show isHolding (runSys (runSys (initSys widA widB) s1) s2).b = false from by
          simp [isHolding, hfb]] at hh
        exact absurd hh (by simp)
      · right
        have h1 := hfb.symm.trans hh
        have h2 := hfa.symm.trans prog.2
        injection h1 with h1'
        injection h2 with h2'
        exact ⟨h2', h1'⟩

/-- **C2 witness.** A concrete overlapping race: worker `a` acquires, worker
`b` is denied, and the completed run ends with exactly one `calculated` and
one `already-locked` outcome. -/
theorem C2_witness :
    (¬(isHolding (runSys (initSys [0] [1]) [true, true, false, false]).a = true ∧
        isHolding (runSys (initSys [0] [1]) [true, true, false, false]).b = true)) ∧
    ((Status.calculated = Status.calculated ∧
        Status.alreadyLocked = Status.alreadyLocked) ∨
      (Status.calculated = Status.alreadyLocked ∧
        Status.alreadyLocked = Status.calculated)) :=
  ⟨(C2_lock_exclusivity [0] [1] (by decide)).1 [true, true, false, false],
    (C2_lock_exclusivity [0] [1] (by decide)).2.2.2.2
      [true, true, false, false] [true, true, true]
      (by decide) (by decide) (by decide) (by decide)
      .calculated .alreadyLocked (by decide) (by decide)⟩

end LockMachine

/-- **C3 witness.** One spec scenario made concrete: with cached pages for
prefixes `""`, `a/`, `a/b/`, `x/` and `a-sibling/` in one namespace, after an
upload of `a/b/c.txt` the entry for prefix `a/b/` (bytes `[97,47,98,47]`) is
present iff it is not on the ancestor chain of the uploaded key's parent —
and it is on that chain, so it is deleted. -/
theorem C3_witness :
    ((tupleKey (fun _ => [104]) ⟨[7], [98], [97, 47, 98, 47], none, 200⟩,
        (⟨.corrupt, 5⟩ : Entry ListObjectsResponse)) ∈
        invalidateListCacheForMutation ⟨true, 300, .targeted, true, 86400, 300000⟩
          (fun _ => [104])
          (([⟨[7], [98], [], none, 200⟩,
             ⟨[7], [98], [97, 47], none, 200⟩,
             ⟨[7], [98], [97, 47, 98, 47], none, 200⟩,
             ⟨[7], [98], [120, 47], none, 200⟩,
             ⟨[7], [98], [97, 45, 115, 47], none, 200⟩] : List CacheTuple).map
            fun x => (tupleKey (fun _ => [104]) x, ⟨.corrupt, 5⟩))
          (some [7]) [98] (.object [97, 47, 98, 47, 99]) ↔
      ¬((fun _ => [104] : ByteStr → ByteStr)
            (⟨[7], [98], [97, 47, 98, 47], none, 200⟩ : CacheTuple).token =
          (fun _ => [104]) [7] ∧
        (⟨[7], [98], [97, 47, 98, 47], none, 200⟩ : CacheTuple).bucket = [98] ∧
        (⟨[7], [98], [97, 47, 98, 47], none, 200⟩ : CacheTuple).pfx ∈
          getAncestorPrefixes (getParentPrefixFromObjectKey [97, 47, 98, 47, 99]))) :=
  C3_targeted_invalidation_exact ⟨true, 300, .targeted, true, 86400, 300000⟩
    (fun _ => [104]) (fun _ => by show (58 : Nat) ∉ [104]; decide) rfl rfl
    [7] [98] (by unfold IsBytes; decide)
    [⟨[7], [98], [], none, 200⟩,
     ⟨[7], [98], [97, 47], none, 200⟩,
     ⟨[7], [98], [97, 47, 98, 47], none, 200⟩,
     ⟨[7], [98], [120, 47], none, 200⟩,
     ⟨[7], [98], [97, 45, 115, 47], none, 200⟩]
    (fun _ => ⟨.corrupt, 5⟩)
    (by intro x hx
        fin_cases hx <;>
          exact ⟨by unfold IsBytes; decide, by unfold IsBytes; decide,
            by unfold IsBytes; decide⟩)
    (.object [97, 47, 98, 47, 99]) (by unfold IsBytes; decide)
    ⟨[7], [98], [97, 47, 98, 47], none, 200⟩ (by simp)

/-- **C8.** Listing-cache key derivation is collision-free across segment
boundaries: two key tuples (with an absent cursor identified with the empty
cursor) derive the same store key only if the hashed session tokens, the
buckets, the prefixes, the cursors and the page sizes all coincide — the
token is hashed to a colon-free hex digest and the remaining segments are
base64url-encoded, so the `:` delimiter cannot occur inside a segment. -/
theorem C8_listCacheKey_collision_free (hash : ByteStr → ByteStr)
    (hhex : ∀ t, 58 ∉ hash t)
    (t1 t2 b1 b2 p1 p2 : ByteStr) (c1 c2 : Option ByteStr) (m1 m2 : Nat)
    (hb1 : IsBytes b1) (hb2 : IsBytes b2) (hp1 : IsBytes p1) (hp2 : IsBytes p2)
    (hc1 : IsBytes (c1.getD [])) (hc2 : IsBytes (c2.getD []))
    (hcol : hash t1 = hash t2 → t1 = t2)
    (hkey : listCacheKey hash t1 b1 p1 c1 m1 = listCacheKey hash t2 b2 p2 c2 m2) :
    t1 = t2 ∧ b1 = b2 ∧ p1 = p2 ∧ c1.getD [] = c2.getD [] ∧ m1 = m2 := by
  rw [listCacheKey_eq, listCacheKey_eq] at hkey
  have h0 := (List.append_right_inj _).mp hkey
  have h1 := append_sep_inj (hhex t1) (hhex t2) h0
  have h2 := append_sep_inj (colon_not_mem_encodeSegment b1)
    (colon_not_mem_encodeSegment b2) h1.2
  have h3 := append_sep_inj (colon_not_mem_encodeSegment p1)
    (colon_not_mem_encodeSegment p2) h2.2
  have h4 := append_sep_inj (colon_not_mem_encodeSegment (c1.getD []))
    (colon_not_mem_encodeSegment (c2.getD [])) h3.2
  exact ⟨hcol h1.1, encodeSegment_inj hb1 hb2 h2.1, encodeSegment_inj hp1 hp2 h3.1,
    encodeSegment_inj hc1 hc2 h4.1, natToDecimal_inj h4.2⟩

/-- **C8 witness.** The collision-freedom theorem applied at a concrete hash
function and key tuple. -/
theorem C8_witness :
    [7] = ([7] : ByteStr) ∧ [98] = ([98] : ByteStr) ∧ [99] = ([99] : ByteStr) ∧
      (none : Option ByteStr).getD [] = (none : Option ByteStr).getD [] ∧ 200 = 200 :=
  C8_listCacheKey_collision_free (fun _ => [104])
    (fun _ => by show (58 : Nat) ∉ [104]; decide)
    [7] [7] [98] [98] [99] [99] none none 200 200
    (by unfold IsBytes; decide) (by unfold IsBytes; decide)
    (by unfold IsBytes; decide) (by unfold IsBytes; decide)
    (by unfold IsBytes; decide) (by unfold IsBytes; decide)
    (fun _ => rfl) rfl

/-- **C1.** With the listing cache enabled, for every key tuple a `get` after
a matching `put` returns exactly the stored page while the TTL window is
open, and returns absent once the TTL has elapsed. -/
theorem C1_listCache_get_after_put (cfg : AtriumConfig) (hash : ByteStr → ByteStr)
    (st : Store ListObjectsResponse) (t0 t1 : Nat)
    (sessionToken bucket pfx : ByteStr) (continuationToken : Option ByteStr)
    (maxKeys : Nat) (response : ListObjectsResponse)
    (henabled : cfg.S3_LIST_CACHE_ENABLED = true) :
    (getCachedListObjectsResponse cfg hash
        (setCachedListObjectsResponse cfg hash st t0 sessionToken bucket pfx
          continuationToken maxKeys response)
        t1 sessionToken bucket pfx continuationToken maxKeys).2 =
      if t1 < t0 + cfg.S3_LIST_CACHE_TTL_SECONDS * 1000 then some response
      else none := by
  unfold getCachedListObjectsResponse setCachedListObjectsResponse
  rw [henabled]
  simp only [Bool.true_eq_false, if_false]
  unfold redisGet
  rw [kvLookup_redisSetEx_self]
  by_cases ht : t1 < t0 + cfg.S3_LIST_CACHE_TTL_SECONDS * 1000
  · simp [ht, parseStored]
  · simp [ht]

/-- **C1 witness.** A concrete put/get round trip: the stored page is
returned at an age inside the TTL window and absent after it elapses. -/
theorem C1_witness :
    (getCachedListObjectsResponse ⟨true, 300, .targeted, true, 86400, 300000⟩
        (fun _ => [97]) (setCachedListObjectsResponse ⟨true, 300, .targeted, true, 86400, 300000⟩
          (fun _ => [97]) [] 1000 [5] [98] [99] none 200
          ⟨[98], [99], none, none, false, [], []⟩)
        200000 [5] [98] [99] none 200).2 =
      some ⟨[98], [99], none, none, false, [], []⟩ ∧
    (getCachedListObjectsResponse ⟨true, 300, .targeted, true, 86400, 300000⟩
        (fun _ => [97]) (setCachedListObjectsResponse ⟨true, 300, .targeted, true, 86400, 300000⟩
          (fun _ => [97]) [] 1000 [5] [98] [99] none 200
          ⟨[98], [99], none, none, false, [], []⟩)
        301000 [5] [98] [99] none 200).2 = none := by
  constructor
  · rw [C1_listCache_get_after_put _ _ _ _ _ _ _ _ _ _ _ rfl]
    decide
  · rw [C1_listCache_get_after_put _ _ _ _ _ _ _ _ _ _ _ rfl]
    decide

/-- **C4.** The bucket-size cache TTL and the freshness predicate follow the
same three `objectCount` tiers (<10k ⇒ 1 h, <100k ⇒ 24 h, otherwise 7 d): the
freshness window in hours equals the cache TTL in seconds divided by 3600;
a 9999-object result is stale at age 2 h, a 50000-object result is fresh at
age 2 h, and a 250000-object result gets a 7-day cache TTL. -/
theorem C4_bucket_size_freshness_tiers :
    (∀ objectCount : Nat,
      getBucketSizeCacheTtlSeconds objectCount =
        if objectCount < 10000 then 3600
        else if objectCount < 100000 then 86400 else 604800) ∧
    (∀ (r : BucketSizeResult) (now : Nat),
      isBucketSizeResultFresh r now = true ↔
        ((now : ℚ) - (r.calculatedAt : ℚ)) / (1000 * 60 * 60) <
          (getBucketSizeCacheTtlSeconds r.objectCount : ℚ) / 3600) ∧
    (∀ (b : ByteStr) (total calcAt dur : Nat) (appr inacc : Bool)
        (err : Option String) (fmt : String),
      isBucketSizeResultFresh ⟨b, total, 9999, appr, inacc, err, calcAt, dur, fmt⟩
        (calcAt + 2 * 60 * 60 * 1000) = false) ∧
    (∀ (b : ByteStr) (total calcAt dur : Nat) (appr inacc : Bool)
        (err : Option String) (fmt : String),
      isBucketSizeResultFresh ⟨b, total, 50000, appr, inacc, err, calcAt, dur, fmt⟩
        (calcAt + 2 * 60 * 60 * 1000) = true) ∧
    getBucketSizeCacheTtlSeconds 250000 = 604800 := by
  refine ⟨fun objectCount => rfl, fun r now => ?_, fun b total calcAt dur appr inacc err fmt => ?_,
    fun b total calcAt dur appr inacc err fmt => ?_, rfl⟩
  · unfold isBucketSizeResultFresh getBucketSizeCacheTtlSeconds
    split_ifs <;> simp <;> norm_num
  · have hage :
        (((calcAt + 2 * 60 * 60 * 1000 : Nat) : ℚ) - (calcAt : ℚ)) / (1000 * 60 * 60)
          = 2 := by
      push_cast
      rw [add_sub_cancel_left]
      norm_num
    unfold isBucketSizeResultFresh
    simp only [if_pos (by norm_num : (9999 : Nat) < 10000)]
    rw [hage]
    norm_num
  · have hage :
        (((calcAt + 2 * 60 * 60 * 1000 : Nat) : ℚ) - (calcAt : ℚ)) / (1000 * 60 * 60)
          = 2 := by
      push_cast
      rw [add_sub_cancel_left]
      norm_num
    unfold isBucketSizeResultFresh
    rw [if_neg (by norm_num), if_pos (by norm_num)]
    rw [hage]
    norm_num

/-- **C5.** With the cache enabled and a session token present, a cache
backend error on the read does not fail the listing request: the handler
returns the upstream page, signals BYPASS (not MISS), and attempts no cache
write, leaving the cache store untouched. -/
theorem C5_cache_read_error_bypasses (cfg : AtriumConfig) (hash : ByteStr → ByteStr)
    (st : Store ListObjectsResponse) (now : Nat) (tok bucket pfx : ByteStr)
    (continuationToken : Option ByteStr) (maxKeys : Nat)
    (upstream : ListObjectsResponse)
    (henabled : cfg.S3_LIST_CACHE_ENABLED = true) :
    handleListObjects cfg hash st now (some tok) bucket pfx continuationToken
        maxKeys true upstream =
      ⟨upstream, .BYPASS, false, st⟩ := by
  unfold handleListObjects
  rw [henabled]
  simp

/-- **C5 witness.** The bypass behavior at a concrete read failure. -/
theorem C5_witness :
    handleListObjects ⟨true, 300, .targeted, true, 86400, 300000⟩ (fun _ => [97])
        [] 0 (some [5]) [98] [99] none 200 true ⟨[98], [], none, none, false, [], []⟩ =
      ⟨⟨[98], [], none, none, false, [], []⟩, .BYPASS, false, []⟩ :=
  C5_cache_read_error_bypasses _ _ _ _ _ _ _ _ _ _ rfl

/-- **C7.** A successful session lookup resets the stored session's TTL to
the full configured lifetime before returning the credentials: after the
lookup the entry's remaining TTL is exactly the full session TTL (hence at
least the original full TTL, not merely unchanged). -/
theorem C7_session_lookup_slides_expiration (cfg : AtriumConfig)
    (st : Store SessionCredentials) (now : Nat) (token : ByteStr)
    (credentials : SessionCredentials)
    (hlive : redisGet st now (sessionKey token) = some (.wellFormed credentials)) :
    (getSessionCredentials cfg st now token).2 = .found credentials ∧
    ∃ e, kvLookup (getSessionCredentials cfg st now token).1 (sessionKey token) = some e ∧
      e.value = .wellFormed credentials ∧
      e.expiresAt = now + cfg.SESSION_TTL_SECONDS * 1000 := by
  obtain ⟨e0, he0, hv0, ht0⟩ := redisGet_eq_some hlive
  unfold getSessionCredentials
  rw [hlive]
  refine ⟨by simp [parseStored], ?_⟩
  refine ⟨⟨.wellFormed credentials, now + cfg.SESSION_TTL_SECONDS * 1000⟩, ?_, rfl, rfl⟩
  simp only [parseStored]
  rw [kvLookup_redisExpire, he0]
  simp [hv0]

/-- **C7 witness.** A concrete session read at age 40000 s (TTL 86400 s)
succeeds and leaves the entry with a full remaining TTL again. -/
theorem C7_witness :
    (getSessionCredentials ⟨true, 300, .targeted, true, 86400, 300000⟩
        [(sessionKey [5], ⟨.wellFormed ⟨[1], [2]⟩, 86400000⟩)] 40000000 [5]).2 =
      .found ⟨[1], [2]⟩ ∧
    ∃ e, kvLookup (getSessionCredentials ⟨true, 300, .targeted, true, 86400, 300000⟩
        [(sessionKey [5], ⟨.wellFormed ⟨[1], [2]⟩, 86400000⟩)] 40000000 [5]).1
        (sessionKey [5]) = some e ∧
      e.value = .wellFormed ⟨[1], [2]⟩ ∧
      e.expiresAt = 40000000 + 86400 * 1000 :=
  C7_session_lookup_slides_expiration _ _ _ _ _ (by decide)

/-- **C10.** A present-but-corrupt session record first has its TTL refreshed
and then surfaces as a thrown parse error, not as "absent": the record stays
alive (with a full TTL) rather than being treated as a miss — unlike the
listing cache, whose corrupt entries are deleted and reported as a miss. -/
theorem C10_corrupt_session_refreshed_then_throws (cfg : AtriumConfig)
    (st : Store SessionCredentials) (now : Nat) (token : ByteStr)
    (hlive : redisGet st now (sessionKey token) = some .corrupt) :
    (getSessionCredentials cfg st now token).2 = .parseError ∧
    (∃ e, kvLookup (getSessionCredentials cfg st now token).1 (sessionKey token) = some e ∧
      e.value = .corrupt ∧ e.expiresAt = now + cfg.SESSION_TTL_SECONDS * 1000) ∧
    (∀ (cst : Store ListObjectsResponse) (hash : ByteStr → ByteStr)
        (bucket pfx : ByteStr) (ct : Option ByteStr) (mk : Nat),
      cfg.S3_LIST_CACHE_ENABLED = true →
      redisGet cst now (listCacheKey hash token bucket pfx ct mk) = some .corrupt →
      (getCachedListObjectsResponse cfg hash cst now token bucket pfx ct mk).2 = none ∧
      kvLookup (getCachedListObjectsResponse cfg hash cst now token bucket pfx ct mk).1
          (listCacheKey hash token bucket pfx ct mk) = none) := by
  obtain ⟨e0, he0, hv0, ht0⟩ := redisGet_eq_some hlive
  refine ⟨?_, ?_, ?_⟩
  · unfold getSessionCredentials
    rw [hlive]
    simp [parseStored]
  · unfold getSessionCredentials
    rw [hlive]
    refine ⟨⟨.corrupt, now + cfg.SESSION_TTL_SECONDS * 1000⟩, ?_, rfl, rfl⟩
    simp only [parseStored]
    rw [kvLookup_redisExpire, he0]
    simp [hv0]
  · intro cst hash bucket pfx ct mk hen hcorrupt
    unfold getCachedListObjectsResponse
    rw [hen]
    simp only [Bool.true_eq_false, if_false]
    rw [hcorrupt]
    simp [parseStored, kvLookup_redisDel]

/-- The trace of the inner bucket loop: one call per tracked bucket, in
order, independent of the store cells and the aggregation outcomes. -/
theorem cycleBucketStep_foldl_trace (cfg : AtriumConfig)
    (outcomes : SessionCredentials → ByteStr → UpstreamOutcome)
    (now : Nat) (workerId : ByteStr) (credentials : SessionCredentials) :
    ∀ (buckets : List ByteStr)
      (acc : (SessionCredentials → ByteStr → BSPairState) × List CycleCall),
      (buckets.foldl (cycleBucketStep cfg outcomes now workerId credentials) acc).2 =
        acc.2 ++ buckets.map (fun bucket => CycleCall.mk bucket credentials false)
  | [], acc => by simp
  | bucket :: rest, acc => by
      rw [List.foldl_cons,
        cycleBucketStep_foldl_trace cfg outcomes now workerId credentials rest _]
      simp [cycleBucketStep]

/-- One outer-loop step appends exactly that session's calls to the trace. -/
theorem cycleSessionStep_trace (cfg : AtriumConfig)
    (sessionVal : ByteStr → Option (StoredVal SessionCredentials))
    (trackedBuckets : ByteStr → List ByteStr)
    (outcomes : SessionCredentials → ByteStr → UpstreamOutcome)
    (now : Nat) (workerId : ByteStr)
    (acc : (SessionCredentials → ByteStr → BSPairState) × List CycleCall)
    (key : ByteStr) :
    (cycleSessionStep cfg sessionVal trackedBuckets outcomes now workerId acc key).2 =
      acc.2 ++ sessionCalls sessionVal trackedBuckets key := by
  unfold cycleSessionStep sessionCalls
  by_cases htok : key.drop sessionKeyPrefixBytes.length = []
  · rw [if_pos htok, if_pos htok]
    simp
  · rw [if_neg htok, if_neg htok]
    cases hcred : parseSessionCredentials
        (sessionVal (key.drop sessionKeyPrefixBytes.length)) with
    | none => simp
    | some credentials =>
        rw [cycleBucketStep_foldl_trace]

/-- The trace of the outer session loop: the concatenation of every session's
calls, independent of the store cells and the aggregation outcomes. -/
theorem cycleSessionStep_foldl_trace (cfg : AtriumConfig)
    (sessionVal : ByteStr → Option (StoredVal SessionCredentials))
    (trackedBuckets : ByteStr → List ByteStr)
    (outcomes : SessionCredentials → ByteStr → UpstreamOutcome)
    (now : Nat) (workerId : ByteStr) :
    ∀ (keys : List ByteStr)
      (acc : (SessionCredentials → ByteStr → BSPairState) × List CycleCall),
      (keys.foldl (cycleSessionStep cfg sessionVal trackedBuckets outcomes now workerId)
          acc).2 =
        acc.2 ++ (keys.map (sessionCalls sessionVal trackedBuckets)).flatten
  | [], acc => by simp
  | key :: rest, acc => by
      rw [List.foldl_cons,
        cycleSessionStep_foldl_trace cfg sessionVal trackedBuckets outcomes now workerId
          rest _,
        cycleSessionStep_trace]
      simp

/-- **C6.** When a `computeWithLock` run that acquired the lock fails, the
failure is recorded as data and not thrown: a permission-denied failure
stores a result with `isInaccessible = true`, zeroed size and count, and the
explanatory "Access denied" error; any other failure stores a result with
`isApproximate = true`, zeroed size and count, and the error message. Both
runs still return `calculated` and release the lock. -/
theorem C6_compute_errors_recorded_as_data (cfg : AtriumConfig) (st : BSPairState)
    (now : Nat) (bucketName workerId : ByteStr) (msg : String)
    (hlock : st.lock = none) (hres : st.result = none) :
    ((calculateBucketSizeWithLock cfg st now bucketName workerId false
        .errPermissionDenied).2 = .calculated ∧
      (calculateBucketSizeWithLock cfg st now bucketName workerId false
        .errPermissionDenied).1.lock = none ∧
      ∃ e, (calculateBucketSizeWithLock cfg st now bucketName workerId false
          .errPermissionDenied).1.result = some e ∧
        e.value = .wellFormed
          ⟨bucketName, 0, 0, false, true, some "Access denied", now, 0, "0 Bytes"⟩) ∧
    ((calculateBucketSizeWithLock cfg st now bucketName workerId false
        (.errOther msg)).2 = .calculated ∧
      (calculateBucketSizeWithLock cfg st now bucketName workerId false
        (.errOther msg)).1.lock = none ∧
      ∃ e, (calculateBucketSizeWithLock cfg st now bucketName workerId false
          (.errOther msg)).1.result = some e ∧
        e.value = .wellFormed
          ⟨bucketName, 0, 0, true, false, some msg, now, 0, "0 Bytes"⟩) := by
  have hω : now < now + lockTtlSeconds cfg * 1000 := by
    unfold lockTtlSeconds
    omega
  constructor
  · unfold calculateBucketSizeWithLock
    simp [getCachedBucketSize, hres, hlock, storeBucketSizeResult, hω]
  · unfold calculateBucketSizeWithLock
    simp [getCachedBucketSize, hres, hlock, storeBucketSizeResult, hω]

/-- **C6 witness.** Concrete failing runs: permission-denied and generic
failures are stored as data and both report `calculated`. -/
theorem C6_witness :
    ((calculateBucketSizeWithLock ⟨true, 300, .targeted, true, 86400, 300000⟩
        ⟨none, none⟩ 7 [98] [1] false .errPermissionDenied).2 = .calculated ∧
      (calculateBucketSizeWithLock ⟨true, 300, .targeted, true, 86400, 300000⟩
        ⟨none, none⟩ 7 [98] [1] false .errPermissionDenied).1.lock = none ∧
      ∃ e, (calculateBucketSizeWithLock ⟨true, 300, .targeted, true, 86400, 300000⟩
          ⟨none, none⟩ 7 [98] [1] false .errPermissionDenied).1.result = some e ∧
        e.value = .wellFormed ⟨[98], 0, 0, false, true, some "Access denied", 7, 0, "0 Bytes"⟩) ∧
    ((calculateBucketSizeWithLock ⟨true, 300, .targeted, true, 86400, 300000⟩
        ⟨none, none⟩ 7 [98] [1] false (.errOther "boom")).2 = .calculated ∧
      (calculateBucketSizeWithLock ⟨true, 300, .targeted, true, 86400, 300000⟩
        ⟨none, none⟩ 7 [98] [1] false (.errOther "boom")).1.lock = none ∧
      ∃ e, (calculateBucketSizeWithLock ⟨true, 300, .targeted, true, 86400, 300000⟩
          ⟨none, none⟩ 7 [98] [1] false (.errOther "boom")).1.result = some e ∧
        e.value = .wellFormed ⟨[98], 0, 0, true, false, some "boom", 7, 0, "0 Bytes"⟩) :=
  C6_compute_errors_recorded_as_data _ _ _ _ _ _ rfl rfl

/-- **C9.** In each scheduler cycle, every tracked (session-credentials,
bucket) pair is passed to `computeWithLock` without `force`, and the call
trace does not depend on the per-pair store cells or on the aggregation
outcomes of earlier pairs — so an error recorded for one pair never aborts
the cycle for the remaining pairs. -/
theorem C9_cycle_processes_all_pairs (cfg : AtriumConfig)
    (sessionScanKeys : List ByteStr)
    (sessionVal : ByteStr → Option (StoredVal SessionCredentials))
    (trackedBuckets : ByteStr → List ByteStr)
    (bs : SessionCredentials → ByteStr → BSPairState)
    (outcomes : SessionCredentials → ByteStr → UpstreamOutcome)
    (now : Nat) (workerId : ByteStr) :
    (runBackgroundBucketSizeCycle cfg true sessionScanKeys sessionVal trackedBuckets
        bs outcomes now workerId).2 =
      (sessionScanKeys.map (sessionCalls sessionVal trackedBuckets)).flatten ∧
    ∀ call ∈ (runBackgroundBucketSizeCycle cfg true sessionScanKeys sessionVal
        trackedBuckets bs outcomes now workerId).2, call.force = false := by
  have htrace :
      (runBackgroundBucketSizeCycle cfg true sessionScanKeys sessionVal trackedBuckets
          bs outcomes now workerId).2 =
        (sessionScanKeys.map (sessionCalls sessionVal trackedBuckets)).flatten := by
    unfold runBackgroundBucketSizeCycle
    rw [if_neg (by simp)]
    rw [cycleSessionStep_foldl_trace]
    simp
  refine ⟨htrace, ?_⟩
  intro call hcall
  rw [htrace] at hcall
  simp only [List.mem_flatten, List.mem_map] at hcall
  obtain ⟨l, ⟨key, _, hl⟩, hmem⟩ := hcall
  subst hl
  unfold sessionCalls at hmem
  split at hmem
  · simp at hmem
  · split at hmem
    · simp at hmem
    · simp only [List.mem_map] at hmem
      obtain ⟨bucket, _, hb⟩ := hmem
      rw [← hb]

/-- **C10 witness.** A concrete corrupt session record: the lookup throws a
parse error, the record survives with a refreshed TTL, and a corrupt listing
cache entry at the same time is deleted and reported as a miss. -/
theorem C10_witness :
    (getSessionCredentials ⟨true, 300, .targeted, true, 86400, 300000⟩
        [(sessionKey [5], ⟨.corrupt, 1000⟩)] 10 [5]).2 = .parseError ∧
    (∃ e, kvLookup (getSessionCredentials ⟨true, 300, .targeted, true, 86400, 300000⟩
        [(sessionKey [5], ⟨.corrupt, 1000⟩)] 10 [5]).1 (sessionKey [5]) = some e ∧
      e.value = .corrupt ∧ e.expiresAt = 10 + 86400 * 1000) ∧
    (∀ (cst : Store ListObjectsResponse) (hash : ByteStr → ByteStr)
        (bucket pfx : ByteStr) (ct : Option ByteStr) (mk : Nat),
      (⟨true, 300, .targeted, true, 86400, 300000⟩ : AtriumConfig).S3_LIST_CACHE_ENABLED
          = true →
      redisGet cst 10 (listCacheKey hash [5] bucket pfx ct mk) = some .corrupt →
      (getCachedListObjectsResponse ⟨true, 300, .targeted, true, 86400, 300000⟩ hash cst
          10 [5] bucket pfx ct mk).2 = none ∧
      kvLookup (getCachedListObjectsResponse ⟨true, 300, .targeted, true, 86400, 300000⟩
          hash cst 10 [5] bucket pfx ct mk).1
          (listCacheKey hash [5] bucket pfx ct mk) = none) :=
  C10_corrupt_session_refreshed_then_throws _ _ _ _ (by decide)

end Atrium

